import Mathlib

/-!
Verification development for the Boink language pipeline
(lexer, recursive-descent parser, semantic analyzer, tree-walking interpreter).

This file contains a shallow embedding of the Python sources
(`lexer.py`, `parse.py`, `syntax_tree.py`, `builtin_types.py`,
`symbol_table.py`, `interpreter.py`, `errors.py`, `boink.py`) as executable
Lean definitions, followed by theorems about the embedded pipeline.

Modelling conventions:
- Machine behaviour that raises a Python exception (AttributeError from the
  name-driven `getattr` dispatch, NameError for an undefined global,
  TypeError, KeyError, IndexError) is modelled with the `PyErr` type; a
  computation that can raise returns `Except Fail`.
- Recursive-descent parsing and tree walking are given an explicit fuel
  parameter; exhausting fuel is the distinct outcome `Fail.fuelOut`, never
  confused with a genuine result or exception.
- Python float values for float literals are kept as their source lexeme
  (the token carries the character run); no claim depends on IEEE
  arithmetic.  Runtime floats are modelled as exact rationals.
- Error records carry their kind and 1-D source position; the formatted
  message strings and console trace output are presentation only and are
  not modelled.
- `deepcopy` of a runtime value is the identity, because embedded values
  are pure data; the aliasing consequences of each copy are reproduced by
  explicit state threading.
-/

set_option autoImplicit false

namespace Boink

/-- Token kinds, from the `TokenType` enum in `lexer.py`. -/
inductive TokenType where
  | EOF | NEW_LINE | INT_LITERAL | FLOAT_LITERAL | PLUS | MINUS | STAR | SLASH
  | AMPERSAND_AMPERSAND | PIPE_PIPE | WORD | FUNC_DEF | EQUALS | L_PAR | R_PAR
  | SEMI_COLON | DYNAMIC_TYPE | INT_TYPE | COMMA | BOOL_LITERAL | BOOL_TYPE
  | FLOAT_TYPE | RIGHT_ARROW | GIVE | IF | GREATER | GREATER_EQUALS | LESS
  | LESS_EQUALS | EQUALS_EQUALS
  deriving DecidableEq

/-- A token's `val` payload: Python `None`, an int, the character run of a
float literal (Python stores `float(run)`), a string, or a bool. -/
inductive TokenVal where
  | none
  | int (n : Nat)
  | floatChars (cs : List Char)
  | str (cs : List Char)
  | bool (b : Bool)
  deriving DecidableEq

/-- `Token` from `lexer.py`: kind, payload and 1-D start position. -/
structure Token where
  tokenType : TokenType
  val : TokenVal
  pos : Nat
  deriving DecidableEq

/-- Error kinds of `errors.py`.  Note the module defines `NotGivenError`;
there is no class named `NoGiveError` anywhere in the code base. -/
inductive ErrKind where
  | UnknownTokenError | UnexpectedTokenError | UndefinedSymbolError
  | MultipleDefinitionError | IncompatibleTypesError | ArgumentMismatchError
  | NotGivenError | GiveNotAllowedError
  deriving DecidableEq

/-- An error record in the shared `ErrorHandler` sink: kind and 1-D source
position (the formatted message string is presentation only). -/
structure Err where
  kind : ErrKind
  pos : Nat
  deriving DecidableEq

/-- A raised Python exception, with the offending attribute/global name
where that identifies the crash site. -/
inductive PyErr where
  | attributeError (attr : String)
  | nameError (n : String)
  | typeError (site : String)
  | keyError
  | indexError
  | zeroDivisionError
  deriving DecidableEq

/-- Abnormal outcome of an embedded computation: fuel exhaustion of the
embedding, or a genuine Python exception of the source program. -/
inductive Fail where
  | fuelOut
  | crash (e : PyErr)
  deriving DecidableEq

/-- `KEYWORDS` from `lexer.py`. -/
def keywordLookup (cs : List Char) : Option TokenType :=
  if cs = ['f', 'n'] then some .FUNC_DEF
  else if cs = ['d', 'y', 'n'] then some .DYNAMIC_TYPE
  else if cs = ['i', 'n', 't'] then some .INT_TYPE
  else if cs = ['f', 'a', 'l', 's', 'e'] then some .BOOL_LITERAL
  else if cs = ['t', 'r', 'u', 'e'] then some .BOOL_LITERAL
  else if cs = ['b', 'o', 'o', 'l'] then some .BOOL_TYPE
  else if cs = ['f', 'l', 'o', 'a', 't'] then some .FLOAT_TYPE
  else if cs = ['g', 'i', 'v', 'e'] then some .GIVE
  else if cs = ['i', 'f'] then some .IF
  else none

/-- `Lexer.current_char`: the character at `pos`, or `None` past the end. -/
def currentChar (text : List Char) (pos : Nat) : Option Char :=
  text.get? pos

/-- `Lexer.peek`: the character `amount` past `pos`, guarded by the source's
`pos + amount < len(text) - 1` bound (which cannot reach the last char). -/
def peek (text : List Char) (pos amount : Nat) : Option Char :=
  if pos + amount + 1 < text.length then text.get? (pos + amount) else none

/-- The loop of `Lexer.is_ahead` at a given index. -/
def isAheadFrom (text : List Char) (pos : Nat) : List Char → Nat → Bool
  | [], _ => true
  | c :: cs, index =>
      if peek text pos index = some c then
        match cs, peek text pos (index + 1) with
        | [], Option.none => false
        | _, _ => isAheadFrom text pos cs (index + 1)
      else false

/-- `Lexer.is_ahead`: compares `s` against the characters at `pos` via
`peek`, and additionally requires that after the final compared character
another peekable character exists (the source checks `peek(index) == None`
after each increment). -/
def isAhead (text : List Char) (pos : Nat) (s : List Char) : Bool :=
  isAheadFrom text pos s 0

/-- Structural version of the `while current_char().isdigit()` loop of
`Lexer.get_next_number_token`, on an explicit step counter.  When the
counter is at least `text.length - pos` it is never the reason the loop
stops, because a zero counter forces `pos ≥ text.length` and the
character test fails anyway. -/
def takeDigitsAux : Nat → List Char → Nat → List Char × Nat
  | 0, _, pos => ([], pos)
  | k + 1, text, pos =>
      match text.get? pos with
      | some c =>
          if c.isDigit then
            let r := takeDigitsAux k text (pos + 1)
            (c :: r.1, r.2)
          else ([], pos)
      | none => ([], pos)

/-- The `while current_char().isdigit()` loop shared by
`Lexer.get_next_number_token`: the consumed digit run and the position
just past it. -/
def takeDigits (text : List Char) (pos : Nat) : List Char × Nat :=
  takeDigitsAux (text.length - pos) text pos

/-- Python `int(run)` on a digit run. -/
def digitsToNat (cs : List Char) : Nat :=
  cs.foldl (fun a c => a * 10 + (c.toNat - 48)) 0

/-- `Lexer.get_next_number_token`: consume a maximal digit run; if a `.`
follows, consume it and another maximal digit run and return a
FLOAT_LITERAL (the source stores `float(run)`, modelled as the lexeme);
otherwise return an INT_LITERAL with value `int(run)`.  Returns the token
and the new lexer position. -/
def getNextNumberToken (text : List Char) (pos : Nat) : Token × Nat :=
  let d := takeDigits text pos
  if currentChar text d.2 = some '.' then
    let d2 := takeDigits text (d.2 + 1)
    (⟨.FLOAT_LITERAL, .floatChars (d.1 ++ '.' :: d2.1), pos⟩, d2.2)
  else
    (⟨.INT_LITERAL, .int (digitsToNat d.1), pos⟩, d.2)

/-- Structural helper for the `while current_char().isalpha()` loop of
`Lexer.get_next_word_token`. -/
def takeAlphaAux : Nat → List Char → Nat → List Char × Nat
  | 0, _, pos => ([], pos)
  | k + 1, text, pos =>
      match text.get? pos with
      | some c =>
          if c.isAlpha then
            let r := takeAlphaAux k text (pos + 1)
            (c :: r.1, r.2)
          else ([], pos)
      | none => ([], pos)

/-- The `while current_char().isalpha()` loop of
`Lexer.get_next_word_token`. -/
def takeAlpha (text : List Char) (pos : Nat) : List Char × Nat :=
  takeAlphaAux (text.length - pos) text pos

/-- `Lexer.get_next_word_token`: a maximal alphabetic run; keywords map to
their token type (boolean literals resolve to their boolean value), other
runs become WORD tokens. -/
def getNextWordToken (text : List Char) (pos : Nat) : Token × Nat :=
  let r := takeAlpha text pos
  match keywordLookup r.1 with
  | some tt =>
      if tt = .BOOL_LITERAL then
        (⟨tt, .bool (r.1 = ['t', 'r', 'u', 'e']), pos⟩, r.2)
      else (⟨tt, .str r.1, pos⟩, r.2)
  | none => (⟨.WORD, .str r.1, pos⟩, r.2)

/-- Structural helper for `Lexer.ignore_white_space`. -/
def ignoreWhiteSpaceAux : Nat → List Char → Nat → Nat
  | 0, _, pos => pos
  | k + 1, text, pos =>
      match text.get? pos with
      | some c => if c = ' ' then ignoreWhiteSpaceAux k text (pos + 1) else pos
      | none => pos

/-- `Lexer.ignore_white_space`: skip spaces. -/
def ignoreWhiteSpaceEnd (text : List Char) (pos : Nat) : Nat :=
  ignoreWhiteSpaceAux (text.length - pos) text pos

/-- Structural helper for `Lexer.ignore_comment`. -/
def ignoreCommentAux : Nat → List Char → Nat → Nat
  | 0, _, pos => pos
  | k + 1, text, pos =>
      match text.get? pos with
      | some c => if c = '\n' then pos else ignoreCommentAux k text (pos + 1)
      | none => pos

/-- `Lexer.ignore_comment`: skip until a newline or the end of input. -/
def ignoreCommentEnd (text : List Char) (pos : Nat) : Nat :=
  ignoreCommentAux (text.length - pos) text pos

/-- `Lexer.get_next_token`: the token dispatch, in source order.  Returns
the token, the new position and the error sink (an `UnknownTokenError` is
recorded for an unrecognized character, which is skipped).  The fuel only
bounds the comment/unknown-character restarts; `text.length + 1` is always
sufficient because every restart strictly advances the position. -/
def getNextToken : Nat → List Char → Nat → List Err → Token × Nat × List Err
  | 0, _, pos, errs => (⟨.EOF, .none, pos⟩, pos, errs)
  | fuel + 1, text, pos0, errs =>
      let pos := ignoreWhiteSpaceEnd text pos0
      if currentChar text pos = some '#' then
        getNextToken fuel text (ignoreCommentEnd text pos) errs
      else
        match currentChar text pos with
        | Option.none => (⟨.EOF, .none, pos⟩, pos, errs)
        | some c =>
          if c.isDigit then
            let r := getNextNumberToken text pos
            (r.1, r.2, errs)
          else if c.isAlpha then
            let r := getNextWordToken text pos
            (r.1, r.2, errs)
          else if c = '+' then (⟨.PLUS, .str [c], pos⟩, pos + 1, errs)
          else if c = ',' then (⟨.COMMA, .str [c], pos⟩, pos + 1, errs)
          else if c = '-' then
            if isAhead text pos ['-', '>'] then
              (⟨.RIGHT_ARROW, .str ['-', '>'], pos⟩, pos + 2, errs)
            else (⟨.MINUS, .str [c], pos⟩, pos + 1, errs)
          else if c = '*' then (⟨.STAR, .str [c], pos⟩, pos + 1, errs)
          else if c = '/' then (⟨.SLASH, .str [c], pos⟩, pos + 1, errs)
          else if c = '(' then (⟨.L_PAR, .str [c], pos⟩, pos + 1, errs)
          else if c = ')' then (⟨.R_PAR, .str [c], pos⟩, pos + 1, errs)
          else if c = '=' then
            if isAhead text pos ['=', '='] then
              (⟨.EQUALS_EQUALS, .str ['=', '='], pos⟩, pos + 2, errs)
            else (⟨.EQUALS, .str [c], pos⟩, pos + 1, errs)
          else if c = ';' then (⟨.SEMI_COLON, .str [c], pos⟩, pos + 1, errs)
          else if c = '\n' then (⟨.NEW_LINE, .str [c], pos⟩, pos + 1, errs)
          else if c = '>' then
            if isAhead text pos ['>', '='] then
              (⟨.GREATER_EQUALS, .str ['>', '='], pos⟩, pos + 2, errs)
            else (⟨.GREATER, .str [c], pos⟩, pos + 1, errs)
          else if c = '<' then
            if isAhead text pos ['<', '='] then
              (⟨.LESS_EQUALS, .str ['<', '='], pos⟩, pos + 2, errs)
            else (⟨.LESS, .str [c], pos⟩, pos + 1, errs)
          else if isAhead text pos ['&', '&'] then
            (⟨.AMPERSAND_AMPERSAND, .str ['&', '&'], pos⟩, pos + 2, errs)
          else if isAhead text pos ['|', '|'] then
            (⟨.PIPE_PIPE, .str ['|', '|'], pos⟩, pos + 2, errs)
          else
            getNextToken fuel text (pos + 1)
              (errs ++ [⟨.UnknownTokenError, pos⟩])

/-- The builtin type classes of `builtin_types.py` (`dyn_`, `int_`,
`bool_`, `float_`, `function_`), viewed as values. -/
inductive Ty where
  | dyn | int | bool | float | function
  deriving DecidableEq

/-- The AST node classes of `syntax_tree.py`.  A child that the parser can
produce as Python `None` (error recovery) is an `Option`.  `IntLiteralSyntax`,
`FloatLiteralSyntax` and `BoolLiteralSyntax` store their token (their `val`
attribute is `token.val`).  `VariableSyntax.var_type` and
`FunctionCallSyntax.var_type` are the annotations filled in by the semantic
analyzer (initially `None`).  There is no constructor for an `if` statement:
`parse.py` refers to a class `IfSyntax` that is defined nowhere. -/
inductive Stx where
  | give (token : Token) (expr : Option Stx)
  | binOp (left : Option Stx) (op : Token) (right : Option Stx)
  | typeS (token : Token)
  | decl (varType : Option Stx) (name : TokenVal) (expr : Option Stx)
  | intLit (token : Token)
  | floatLit (token : Token)
  | boolLit (token : Token)
  | unaryOp (op : Token) (expr : Option Stx)
  | assign (var : Stx) (expr : Option Stx)
  | variableS (token : Token) (name : TokenVal) (varType : Option Ty)
  | paren (expr : Option Stx)
  | funcDef (name : Token) (giveTypeSyntax : Option Stx) (stmts : List Stx)
      (args : List Stx)
  | funcCall (var : Stx) (args : List (Option Stx)) (varType : Option Ty)

/-- `ProgramSyntax`: program name and ordered statements. -/
structure Program where
  name : TokenVal
  statements : List Stx

/-- `TYPE_TOKENS` from `parse.py`. -/
def isTypeToken : TokenType → Bool
  | .DYNAMIC_TYPE | .INT_TYPE | .BOOL_TYPE | .FLOAT_TYPE => true
  | _ => false

/-- `BINARY_OPERATOR_TOKENS` from `parse.py`. -/
def isBinaryOperatorToken : TokenType → Bool
  | .PLUS | .MINUS | .AMPERSAND_AMPERSAND | .PIPE_PIPE => true
  | _ => false

/-- Abnormal-result monad used by the whole embedding. -/
abbrev Res (α : Type) : Type := Except Fail α

/-- Parser state: the lexer it drives (`text`, `pos`), the one-token
lookahead `tok`, and the shared error sink. -/
structure PState where
  text : List Char
  pos : Nat
  tok : Token
  errs : List Err
  deriving DecidableEq

/-- Pull the next token from the lexer (`self.current_token =
self.lexer.get_next_token()`).  The internal lexer fuel `text.length + 1`
is always sufficient because every lexer restart strictly advances the
position. -/
def pAdvance (σ : PState) : PState :=
  let r := getNextToken (σ.text.length + 1) σ.text σ.pos σ.errs
  ⟨σ.text, r.2.1, r.1, r.2.2⟩

/-- `Parser.__init__`: pull the first token. -/
def initPState (text : List Char) : PState :=
  pAdvance ⟨text, 0, ⟨.EOF, .none, 0⟩, []⟩

/-- `Parser.consume`: advance on a match; on a mismatch record an
`UnexpectedTokenError` at the mismatched token and advance anyway. -/
def consume (tt : TokenType) (σ : PState) : PState :=
  if σ.tok.tokenType = tt then pAdvance σ
  else pAdvance { σ with errs := σ.errs ++ [⟨.UnexpectedTokenError, σ.tok.pos⟩] }

/-- `Parser.consume_optional`. -/
def consumeOptional (tt : TokenType) (σ : PState) : PState :=
  if σ.tok.tokenType = tt then pAdvance σ else σ

/-- The `while` loop shared by `consume_all` and `consume_all_optional`.
The internal fuel `text.length + 2` is sufficient for every call the
source makes (always with NEW_LINE; a newline run is bounded by the text
length). -/
def consumeAllLoop : Nat → TokenType → PState → PState
  | 0, _, σ => σ
  | fuel + 1, tt, σ =>
      if σ.tok.tokenType = tt then consumeAllLoop fuel tt (consume tt σ) else σ

/-- `Parser.consume_all`: one mandatory consume, then drain the run. -/
def consumeAll (tt : TokenType) (σ : PState) : PState :=
  consumeAllLoop (σ.text.length + 2) tt (consume tt σ)

/-- `Parser.consume_all_optional`: drain the run (possibly empty). -/
def consumeAllOptional (tt : TokenType) (σ : PState) : PState :=
  consumeAllLoop (σ.text.length + 2) tt σ

/-- `Parser.parse_type`: a type-keyword token becomes a `TypeSyntax`; any
other token records an `UnexpectedTokenError` without advancing and yields
Python `None`. -/
def parseType (σ : PState) : Option Stx × PState :=
  if isTypeToken σ.tok.tokenType then
    let token := σ.tok
    (some (.typeS token), consume token.tokenType σ)
  else
    (Option.none, { σ with errs := σ.errs ++ [⟨.UnexpectedTokenError, σ.tok.pos⟩] })

mutual

/-- `Parser.parse_factor`.  A token matching no branch falls through and
yields Python `None`. -/
def parseFactor : Nat → PState → Res (Option Stx × PState)
  | 0, _ => .error .fuelOut
  | fuel + 1, σ =>
      let token := σ.tok
      if token.tokenType = .MINUS then do
        let σ := consume .MINUS σ
        let (e, σ) ← parseFactor fuel σ
        .ok (some (.unaryOp token e), σ)
      else if token.tokenType = .PLUS then do
        let σ := consume .PLUS σ
        let (e, σ) ← parseFactor fuel σ
        .ok (some (.unaryOp token e), σ)
      else if token.tokenType = .INT_LITERAL then
        .ok (some (.intLit token), consume .INT_LITERAL σ)
      else if token.tokenType = .FLOAT_LITERAL then
        .ok (some (.floatLit token), consume .FLOAT_LITERAL σ)
      else if token.tokenType = .BOOL_LITERAL then
        .ok (some (.boolLit token), consume .BOOL_LITERAL σ)
      else if token.tokenType = .L_PAR then do
        let σ := consume .L_PAR σ
        let (e, σ) ← parseExpression fuel σ
        let σ := consume .R_PAR σ
        .ok (some (.paren e), σ)
      else if token.tokenType = .WORD then
        let v := Stx.variableS token token.val Option.none
        let σ := consume .WORD σ
        if σ.tok.tokenType = .L_PAR then do
          let (args, σ) ← parseCallArguments fuel σ
          .ok (some (.funcCall v args Option.none), σ)
        else .ok (some v, σ)
      else .ok (Option.none, σ)

/-- `Parser.parse_term`: a factor followed by `*` / `/` factors. -/
def parseTerm : Nat → PState → Res (Option Stx × PState)
  | 0, _ => .error .fuelOut
  | fuel + 1, σ => do
      let (node, σ) ← parseFactor fuel σ
      parseTermLoop fuel node σ

/-- The `while` loop of `parse_term`. -/
def parseTermLoop : Nat → Option Stx → PState → Res (Option Stx × PState)
  | 0, _, _ => .error .fuelOut
  | fuel + 1, node, σ =>
      if σ.tok.tokenType = .STAR ∨ σ.tok.tokenType = .SLASH then do
        let token := σ.tok
        let σ := consume token.tokenType σ
        let (rhs, σ) ← parseFactor fuel σ
        parseTermLoop fuel (some (.binOp node token rhs)) σ
      else .ok (node, σ)

/-- `Parser.parse_expression`: a term followed by binary-operator terms. -/
def parseExpression : Nat → PState → Res (Option Stx × PState)
  | 0, _ => .error .fuelOut
  | fuel + 1, σ => do
      let (node, σ) ← parseTerm fuel σ
      parseExpressionLoop fuel node σ

/-- The `while` loop of `parse_expression`. -/
def parseExpressionLoop : Nat → Option Stx → PState → Res (Option Stx × PState)
  | 0, _, _ => .error .fuelOut
  | fuel + 1, node, σ =>
      if isBinaryOperatorToken σ.tok.tokenType then do
        let token := σ.tok
        let σ := consume token.tokenType σ
        let (rhs, σ) ← parseTerm fuel σ
        parseExpressionLoop fuel (some (.binOp node token rhs)) σ
      else .ok (node, σ)

/-- `Parser.parse_call_arguments`. -/
def parseCallArguments : Nat → PState → Res (List (Option Stx) × PState)
  | 0, _ => .error .fuelOut
  | fuel + 1, σ => parseCallArgumentsLoop fuel [] (consume .L_PAR σ)

/-- The `while` loop of `parse_call_arguments`; both exits consume the
closing parenthesis. -/
def parseCallArgumentsLoop :
    Nat → List (Option Stx) → PState → Res (List (Option Stx) × PState)
  | 0, _, _ => .error .fuelOut
  | fuel + 1, acc, σ =>
      if σ.tok.tokenType ≠ .R_PAR then do
        let (v, σ) ← parseExpression fuel σ
        let acc := acc ++ [v]
        if σ.tok.tokenType = .COMMA then
          parseCallArgumentsLoop fuel acc (consume .COMMA σ)
        else .ok (acc, consume .R_PAR σ)
      else .ok (acc, consume .R_PAR σ)

/-- `Parser.parse_argument_list` (function parameter declarations). -/
def parseArgumentList : Nat → PState → Res (List Stx × PState)
  | 0, _ => .error .fuelOut
  | fuel + 1, σ => parseArgumentListLoop fuel [] (consume .L_PAR σ)

/-- The `while` loop of `parse_argument_list`. -/
def parseArgumentListLoop :
    Nat → List Stx → PState → Res (List Stx × PState)
  | 0, _, _ => .error .fuelOut
  | fuel + 1, acc, σ =>
      if isTypeToken σ.tok.tokenType then do
        let (d, σ) ← parseDeclaration fuel σ
        let acc := acc ++ [d]
        if σ.tok.tokenType = .COMMA then
          parseArgumentListLoop fuel acc (consume .COMMA σ)
        else .ok (acc, consume .R_PAR σ)
      else .ok (acc, consume .R_PAR σ)

/-- `Parser.parse_declaration`. -/
def parseDeclaration : Nat → PState → Res (Stx × PState)
  | 0, _ => .error .fuelOut
  | fuel + 1, σ => do
      let (vt, σ) := parseType σ
      let name := σ.tok.val
      let σ := consume .WORD σ
      if σ.tok.tokenType = .EQUALS then do
        let σ := consume .EQUALS σ
        let (e, σ) ← parseExpression fuel σ
        .ok (.decl vt name e, σ)
      else .ok (.decl vt name Option.none, σ)

/-- `Parser.parse_give`. -/
def parseGive : Nat → PState → Res (Stx × PState)
  | 0, _ => .error .fuelOut
  | fuel + 1, σ => do
      let token := σ.tok
      let σ := consume .GIVE σ
      let (e, σ) ← parseExpression fuel σ
      .ok (.give token e, σ)

/-- `Parser.parse_function`. -/
def parseFunction : Nat → PState → Res (Stx × PState)
  | 0, _ => .error .fuelOut
  | fuel + 1, σ => do
      let σ := consume .FUNC_DEF σ
      let name := σ.tok
      let σ := consume .WORD σ
      let (args, σ) ← parseArgumentList fuel σ
      let (giveType, σ) :=
        if σ.tok.tokenType = .RIGHT_ARROW then
          parseType (consume .RIGHT_ARROW σ)
        else (Option.none, σ)
      let σ := consumeAll .NEW_LINE σ
      let (stmts, σ) ← parseStatements fuel σ
      let σ := consume .SEMI_COLON σ
      .ok (.funcDef name giveType stmts args, σ)

/-- `Parser.parse_if`: after consuming `if`, `(`, the condition, `)` and a
newline, the source evaluates `IfSyntax(token, expr)`.  No class named
`IfSyntax` exists anywhere in the code base, so this raises `NameError`
before the body is parsed. -/
def parseIf : Nat → PState → Res (Stx × PState)
  | 0, _ => .error .fuelOut
  | fuel + 1, σ => do
      let σ := consume .IF σ
      let σ := consume .L_PAR σ
      let (_e, σ) ← parseExpression fuel σ
      let σ := consume .R_PAR σ
      let _σfin := consume .NEW_LINE σ
      .error (.crash (.nameError "IfSyntax"))

/-- `Parser.parse_statement`. -/
def parseStatement : Nat → PState → Res (Option Stx × PState)
  | 0, _ => .error .fuelOut
  | fuel + 1, σ =>
      if isTypeToken σ.tok.tokenType then do
        let (d, σ) ← parseDeclaration fuel σ
        .ok (some d, σ)
      else if σ.tok.tokenType = .WORD then
        let v := Stx.variableS σ.tok σ.tok.val Option.none
        let σ := consume .WORD σ
        if σ.tok.tokenType = .EQUALS then do
          let σ := consume .EQUALS σ
          let (e, σ) ← parseExpression fuel σ
          .ok (some (.assign v e), σ)
        else if σ.tok.tokenType = .L_PAR then do
          let (args, σ) ← parseCallArguments fuel σ
          .ok (some (.funcCall v args Option.none), σ)
        else parseStatementTail fuel (consume .EQUALS σ)
      else parseStatementTail fuel σ

/-- The trailing dispatch of `parse_statement` (`fn` / `give` / `if`),
reached directly or after the identifier branch fell through. -/
def parseStatementTail : Nat → PState → Res (Option Stx × PState)
  | 0, _ => .error .fuelOut
  | fuel + 1, σ =>
      if σ.tok.tokenType = .FUNC_DEF then do
        let (f, σ) ← parseFunction fuel σ
        .ok (some f, σ)
      else if σ.tok.tokenType = .GIVE then do
        let (g, σ) ← parseGive fuel σ
        .ok (some g, σ)
      else if σ.tok.tokenType = .IF then do
        let (i, σ) ← parseIf fuel σ
        .ok (some i, σ)
      else .ok (Option.none, σ)

/-- `Parser.parse_statements`. -/
def parseStatements : Nat → PState → Res (List Stx × PState)
  | 0, _ => .error .fuelOut
  | fuel + 1, σ => do
      let (st, σ) ← parseStatement fuel σ
      match st with
      | Option.none => .ok ([], σ)
      | some st =>
          let σ := consumeAll .NEW_LINE σ
          parseStatementsLoop fuel [] st σ

/-- The `while True` loop of `parse_statements`. -/
def parseStatementsLoop : Nat → List Stx → Stx → PState → Res (List Stx × PState)
  | 0, _, _, _ => .error .fuelOut
  | fuel + 1, acc, st, σ => do
      let acc := acc ++ [st]
      let (next, σ) ← parseStatement fuel σ
      match next with
      | Option.none => .ok (acc, σ)
      | some st2 =>
          let σ := consumeAll .NEW_LINE σ
          parseStatementsLoop fuel acc st2 σ

end

/-- `Parser.parse`: the entry point. -/
def parseProgram : Nat → TokenVal → PState → Res (Program × PState)
  | 0, _, _ => .error .fuelOut
  | fuel + 1, name, σ => do
      let σ := consumeAllOptional .NEW_LINE σ
      let (stmts, σ) ← parseStatements fuel σ
      let σ := consume .EOF σ
      .ok (⟨name, stmts⟩, σ)

/-- Lex and parse a source text. -/
def parseSource (fuel : Nat) (name : TokenVal) (text : List Char) :
    Res (Program × PState) :=
  parseProgram fuel name (initPState text)

/-! ### Attribute accessors and per-node `get_type` / `get_pos`

The Python code reads attributes (`.token`, `.name`) and calls `get_type`
/ `get_pos` through duck typing; an access on a node class without the
attribute, or on `None`, raises `AttributeError`. -/

/-- The `.token` attribute: present on `GiveSyntax`, `TypeSyntax`, the
three literal classes and `VariableSyntax`. -/
def stxToken : Stx → Res Token
  | .give t _ => .ok t
  | .typeS t => .ok t
  | .intLit t => .ok t
  | .floatLit t => .ok t
  | .boolLit t => .ok t
  | .variableS t _ _ => .ok t
  | _ => .error (.crash (.attributeError "token"))

/-- `.token` through an optional child (`None.token` raises). -/
def stxTokenOpt : Option Stx → Res Token
  | some s => stxToken s
  | Option.none => .error (.crash (.attributeError "token"))

/-- The `.name` attribute used as a string key (`VariableSyntax.name`,
`DeclarationSyntax.name`).  `FunctionSyntax.name` is a Token, not a
string; it is never used as a key by reachable code and is modelled as an
attribute failure here. -/
def stxNameAttr : Stx → Res TokenVal
  | .variableS _ n _ => .ok n
  | .decl _ n _ => .ok n
  | _ => .error (.crash (.attributeError "name"))

/-- `SyntaxNode.get_pos` per node class (`syntax_tree.py`).  For
`ParenthesizedSyntax` the source computes `expr.get_pos() - 1`; the
truncated `Nat` subtraction agrees except for an inner position 0, which
cannot occur because a `(` always precedes the inner expression. -/
def getPos : Stx → Res Nat
  | .give t _ => .ok t.pos
  | .binOp (some l) _ _ => getPos l
  | .binOp Option.none _ _ => .error (.crash (.attributeError "get_pos"))
  | .typeS t => .ok t.pos
  | .decl (some vt) _ _ => getPos vt
  | .decl Option.none _ _ => .error (.crash (.attributeError "get_pos"))
  | .intLit t => .ok t.pos
  | .floatLit t => .ok t.pos
  | .boolLit t => .ok t.pos
  | .unaryOp op _ => .ok op.pos
  | .assign v _ => getPos v
  | .variableS t _ _ => .ok t.pos
  | .paren (some e) => do
      let p ← getPos e
      .ok (p - 1)
  | .paren Option.none => .error (.crash (.attributeError "get_pos"))
  | .funcDef n _ _ _ => .ok n.pos
  | .funcCall v _ _ => do
      let t ← stxToken v
      .ok t.pos

/-- `DeclarationSyntax.get_type`: the `if`/`elif` chain over the type
token (falls through to `None` for a non-type token). -/
def tyOfTypeToken : TokenType → Option Ty
  | .DYNAMIC_TYPE => some .dyn
  | .INT_TYPE => some .int
  | .BOOL_TYPE => some .bool
  | .FLOAT_TYPE => some .float
  | _ => Option.none

/-- `builtin_types.get_type_by_token_type`: a dict lookup, so a non-type
token raises `KeyError`. -/
def getTypeByTokenType : TokenType → Res Ty
  | .DYNAMIC_TYPE => .ok .dyn
  | .INT_TYPE => .ok .int
  | .BOOL_TYPE => .ok .bool
  | .FLOAT_TYPE => .ok .float
  | _ => .error (.crash .keyError)

/-- `SyntaxNode.get_type` per node class.  For `BinaryOperationSyntax`
the source evaluates the operand types and the position and then calls
`lType.additionType` / `subtractionType` / `multiplicationType` /
`divisionType` / `andType` / `orType`.  The builtin type classes define
only the snake_case methods `addition_type` etc., so each of these
attribute lookups raises `AttributeError` (as it also does when the left
type is `None`). -/
def getType : Stx → Res (Option Ty)
  | .give _ _ => .ok Option.none
  | .binOp Option.none _ _ => .error (.crash (.attributeError "get_type"))
  | .binOp (some l) op r => do
      let _lt ← getType l
      let _rt ← (match r with
        | some rs => getType rs
        | Option.none => .error (.crash (.attributeError "get_type")))
      let _pos ← getPos l
      match op.tokenType with
      | .PLUS => .error (.crash (.attributeError "additionType"))
      | .MINUS => .error (.crash (.attributeError "subtractionType"))
      | .STAR => .error (.crash (.attributeError "multiplicationType"))
      | .SLASH => .error (.crash (.attributeError "divisionType"))
      | .AMPERSAND_AMPERSAND => .error (.crash (.attributeError "andType"))
      | .PIPE_PIPE => .error (.crash (.attributeError "orType"))
      | _ => .ok Option.none
  | .typeS _ => .ok Option.none
  | .decl vt _ _ => do
      let t ← stxTokenOpt vt
      .ok (tyOfTypeToken t.tokenType)
  | .intLit _ => .ok (some .int)
  | .floatLit _ => .ok (some .float)
  | .boolLit _ => .ok (some .bool)
  | .unaryOp _ (some e) => getType e
  | .unaryOp _ Option.none => .error (.crash (.attributeError "get_type"))
  | .assign _ _ => .ok Option.none
  | .variableS _ _ vt => .ok vt
  | .paren (some e) => getType e
  | .paren Option.none => .error (.crash (.attributeError "get_type"))
  | .funcDef _ _ _ _ => .ok Option.none
  | .funcCall _ _ vt => .ok vt

/-- `get_type` through an optional node. -/
def getTypeO : Option Stx → Res (Option Ty)
  | some s => getType s
  | Option.none => .error (.crash (.attributeError "get_type"))

/-- `[a.get_type() for a in node.args]` (function definition). -/
def mapGetTypes : List Stx → Res (List (Option Ty))
  | [] => .ok []
  | a :: rest => do
      let t ← getType a
      let ts ← mapGetTypes rest
      .ok (t :: ts)

/-! ### The operator type rules of `builtin_types.py`

The builtin classes define class methods `addition_type`,
`subtraction_type`, `multiplication_type`, `division_type` dispatched on
the left operand's class.  Every unsupported-pair branch executes
`ErrorHandler.error(SomeError(...))` — calling the *unbound* instance
method on the class with a single argument — which raises `TypeError`
before anything is recorded. -/

/-- `addition_type`: `int_` and `float_` override the base; the base
method (inherited by `dyn_`, `bool_`, `function_`) always takes the
crashing error path. -/
def addition_type (cls other : Ty) : Res (Option Ty) :=
  match cls with
  | .int =>
      if other = .float then .ok (some .float)
      else if other = .int then .ok (some .int)
      else .error (.crash (.typeError "ErrorHandler.error"))
  | .float =>
      if other = .float then .ok (some .float)
      else if other = .int then .ok (some .float)
      else .error (.crash (.typeError "ErrorHandler.error"))
  | _ => .error (.crash (.typeError "ErrorHandler.error"))

/-- `subtraction_type`. -/
def subtraction_type (cls other : Ty) : Res (Option Ty) :=
  match cls with
  | .int =>
      if other = .float then .ok (some .float)
      else if other = .int then .ok (some .int)
      else .error (.crash (.typeError "ErrorHandler.error"))
  | .float =>
      if other = .float then .ok (some .float)
      else if other = .int then .ok (some .float)
      else .error (.crash (.typeError "ErrorHandler.error"))
  | _ => .error (.crash (.typeError "ErrorHandler.error"))

/-- `multiplication_type`.  Note `int_.multiplication_type` returns
`float_` on the `other_type == int_` branch. -/
def multiplication_type (cls other : Ty) : Res (Option Ty) :=
  match cls with
  | .int =>
      if other = .float then .ok (some .float)
      else if other = .int then .ok (some .float)
      else .error (.crash (.typeError "ErrorHandler.error"))
  | .float =>
      if other = .float then .ok (some .float)
      else if other = .int then .ok (some .float)
      else .error (.crash (.typeError "ErrorHandler.error"))
  | _ => .error (.crash (.typeError "ErrorHandler.error"))

/-- `division_type`. -/
def division_type (cls other : Ty) : Res (Option Ty) :=
  match cls with
  | .int =>
      if other = .float then .ok (some .float)
      else if other = .int then .ok (some .float)
      else .error (.crash (.typeError "ErrorHandler.error"))
  | .float =>
      if other = .float then .ok (some .float)
      else if other = .int then .ok (some .float)
      else .error (.crash (.typeError "ErrorHandler.error"))
  | _ => .error (.crash (.typeError "ErrorHandler.error"))

/-! ### Symbols, scopes and the semantic analyzer (`symbol_table.py`) -/

/-- `VarSymbol` and `FunctionSymbol`.  A `FunctionSymbol`'s `var_type` is
the `function_` class. -/
inductive Symbol where
  | varS (varType : Ty) (name : TokenVal)
  | funcS (argTypes : List (Option Ty)) (name : TokenVal) (giveType : Option Ty)
  deriving DecidableEq

/-- The `var_type` attribute of a symbol. -/
def Symbol.varTypeOf : Symbol → Ty
  | .varS t _ => t
  | .funcS _ _ _ => .function

/-- The `name` attribute of a symbol. -/
def Symbol.nameOf : Symbol → TokenVal
  | .varS _ n => n
  | .funcS _ n _ => n

/-- A `SymbolTable`: scope name, optional owner `FunctionSymbol`, and the
name-to-symbol dict. -/
structure Scope where
  scopeName : TokenVal
  owner : Option Symbol
  table : List (TokenVal × Symbol)
  deriving DecidableEq

/-- Dict assignment (`self[symbol.name] = symbol`): overwrite or append. -/
def tableSet : List (TokenVal × Symbol) → TokenVal → Symbol →
    List (TokenVal × Symbol)
  | [], k, v => [(k, v)]
  | (k0, v0) :: rest, k, v =>
      if k0 = k then (k, v) :: rest else (k0, v0) :: tableSet rest k v

/-- Dict lookup (`self.get(name)`). -/
def tableGet : List (TokenVal × Symbol) → TokenVal → Option Symbol
  | [], _ => Option.none
  | (k0, v0) :: rest, k => if k0 = k then some v0 else tableGet rest k

/-- `SymbolTable.define`. -/
def scopeDefine (sc : Scope) (sym : Symbol) : Scope :=
  { sc with table := tableSet sc.table sym.nameOf sym }

/-- `SymbolTable.lookup`: the current scope, then the parent chain.  The
chain of live scopes is the list, innermost first. -/
def scopesLookup : List Scope → TokenVal → Option Symbol
  | [], _ => Option.none
  | sc :: rest, k =>
      match tableGet sc.table k with
      | some s => some s
      | Option.none => scopesLookup rest k

/-- Analyzer state: the chain of scopes from `self.current_scope` outwards
(innermost first), and the shared error sink. -/
structure AnState where
  scopes : List Scope
  errs : List Err
  deriving DecidableEq

/-- Restoring `self.current_scope` to the scope object that was current
before a statement was visited: deeper visits only push new scopes in
front and mutate the scope at the head at the time, so the restored state
is the suffix of the given length. -/
def restoreTo (n : Nat) (l : List Scope) : List Scope :=
  l.drop (l.length - n)

/-- `type(s) == GiveSyntax`. -/
def isGiveStx : Stx → Bool
  | .give _ _ => true
  | _ => false

mutual

/-- `SymbolTableBuilder.visit` (the `ASTVisitor` dispatch): name-driven
dispatch over the node's class, with the handlers of `symbol_table.py`
and the `pass` stubs of `ASTVisitor`.  No handler exists for
`UnaryOperationSyntax` or `TypeSyntax` (and visiting Python `None`
dispatches on `NoneType`), so those raise `AttributeError`.  Returns the
annotated node together with the updated state. -/
def anVisit : Nat → Option Stx → AnState → Res (Option Stx × AnState)
  | 0, _, _ => .error .fuelOut
  | fuel + 1, node, st =>
    match node with
    | Option.none => .error (.crash (.attributeError "visit_none_type"))
    | some s =>
      match s with
      | .intLit _ => .ok (some s, st)
      | .floatLit _ => .ok (some s, st)
      | .boolLit _ => .ok (some s, st)
      | .unaryOp _ _ =>
          .error (.crash (.attributeError "visit_unary_operation_syntax"))
      | .typeS _ => .error (.crash (.attributeError "visit_type_syntax"))
      | .binOp l op r => do
          let (l2, st) ← anVisit fuel l st
          let (r2, st) ← anVisit fuel r st
          .ok (some (.binOp l2 op r2), st)
      | .paren e => do
          let (e2, st) ← anVisit fuel e st
          .ok (some (.paren e2), st)
      | .variableS tok name _ =>
          match st.scopes with
          | [] => .error (.crash (.attributeError "current_scope"))
          | _ =>
            match scopesLookup st.scopes name with
            | Option.none =>
                .ok (some s,
                  { st with errs := st.errs ++ [⟨.UndefinedSymbolError, tok.pos⟩] })
            | some sym =>
                .ok (some (.variableS tok name (some sym.varTypeOf)), st)
      | .decl vt name expr => do
          let tokv ← stxTokenOpt vt
          let varTy ← getTypeByTokenType tokv.tokenType
          match st.scopes with
          | [] => .error (.crash (.attributeError "current_scope"))
          | cur :: restScopes =>
            match tableGet cur.table name with
            | some _ => do
                let pos ← getPos s
                .ok (some s,
                  { st with errs := st.errs ++ [⟨.MultipleDefinitionError, pos⟩] })
            | Option.none =>
                let cur := scopeDefine cur (.varS varTy name)
                let st := { st with scopes := cur :: restScopes }
                match expr with
                | Option.none => .ok (some s, st)
                | some e => do
                    let (e2, st) ← anVisit fuel (some e) st
                    let ety ← getTypeO e2
                    if ety ≠ some varTy then do
                      let pos ← getPos s
                      .ok (some (.decl vt name e2),
                        { st with errs := st.errs ++ [⟨.IncompatibleTypesError, pos⟩] })
                    else .ok (some (.decl vt name e2), st)
      | .assign v expr =>
          match st.scopes with
          | [] => .error (.crash (.attributeError "current_scope"))
          | _ => do
            let name ← stxNameAttr v
            let symbol := scopesLookup st.scopes name
            let (e2, st) ← anVisit fuel expr st
            match symbol with
            | Option.none => do
                let pos ← getPos v
                .ok (some (.assign v e2),
                  { st with errs := st.errs ++ [⟨.UndefinedSymbolError, pos⟩] })
            | some sym => do
                let ety ← getTypeO e2
                if ety ≠ some sym.varTypeOf then do
                  let pos ← getPos s
                  .ok (some (.assign v e2),
                    { st with errs := st.errs ++ [⟨.IncompatibleTypesError, pos⟩] })
                else .ok (some (.assign v e2), st)
      | .give tok expr => do
          let (e2, st) ← anVisit fuel expr st
          match st.scopes with
          | [] => .error (.crash (.attributeError "current_scope"))
          | cur :: _ =>
            match cur.owner with
            | Option.none =>
                .ok (some s,
                  { st with errs := st.errs ++ [⟨.GiveNotAllowedError, tok.pos⟩] })
            | some ownerSym =>
                match ownerSym with
                | .varS _ _ => .error (.crash (.attributeError "give_type"))
                | .funcS _ _ giveTy =>
                  match giveTy with
                  | Option.none =>
                      .ok (some s,
                        { st with errs := st.errs ++ [⟨.IncompatibleTypesError, tok.pos⟩] })
                  | some gt => do
                      let ety ← getTypeO e2
                      if some gt ≠ ety then
                        .ok (some (.give tok e2),
                          { st with errs := st.errs ++ [⟨.IncompatibleTypesError, tok.pos⟩] })
                      else .ok (some (.give tok e2), st)
      | .funcDef nameTok giveTypeSyntax stmts args =>
          match st.scopes with
          | [] => .error (.crash (.attributeError "current_scope"))
          | cur :: restScopes =>
            match scopesLookup (cur :: restScopes) nameTok.val with
            | some _ =>
                .ok (some s,
                  { st with errs := st.errs ++ [⟨.MultipleDefinitionError, nameTok.pos⟩] })
            | Option.none => do
                let argTypes ← mapGetTypes args
                let giveType ← (match giveTypeSyntax with
                  | Option.none => .ok (Option.none : Option Ty)
                  | some gts => do
                      let t ← stxToken gts
                      let ty ← getTypeByTokenType t.tokenType
                      .ok (some ty))
                let symbol := Symbol.funcS argTypes nameTok.val giveType
                let cur := scopeDefine cur symbol
                let newScope : Scope := ⟨nameTok.val, some symbol, []⟩
                let st := { st with scopes := newScope :: cur :: restScopes }
                let st ← anVisitArgs fuel args st
                let depth := restScopes.length + 2
                let (hasGive, st) ← anVisitBody fuel stmts depth false st
                if !hasGive && giveType.isSome then
                  .error (.crash (.nameError "NoGiveError"))
                else .ok (some s, st)
      | .funcCall v args _ =>
          match st.scopes with
          | [] => .error (.crash (.attributeError "current_scope"))
          | _ => do
            let name ← stxNameAttr v
            match scopesLookup st.scopes name with
            | Option.none => do
                let pos ← getPos s
                .ok (some s,
                  { st with errs := st.errs ++ [⟨.UndefinedSymbolError, pos⟩] })
            | some sym =>
                match sym with
                | .varS _ _ => .error (.crash (.attributeError "give_type"))
                | .funcS symArgTypes _ giveTy => do
                    let s2 := Stx.funcCall v args giveTy
                    let (annArgs, st) ← anVisitCallArgs fuel args [] st
                    let argTypes ← (match annArgs.getLast? with
                      | Option.none => .ok ([] : List (Option Ty))
                      | some lastA => do
                          let t ← getTypeO lastA
                          .ok (List.replicate args.length t))
                    if argTypes.length > symArgTypes.length then do
                      let pos ← getPos s
                      .ok (some s2,
                        { st with errs := st.errs ++ [⟨.ArgumentMismatchError, pos⟩] })
                    else if argTypes.length < symArgTypes.length then do
                      let pos ← getPos s
                      .ok (some s2,
                        { st with errs := st.errs ++ [⟨.ArgumentMismatchError, pos⟩] })
                    else if (argTypes.zip symArgTypes).any
                        (fun p => decide (p.1 ≠ p.2)) then do
                      let pos ← getPos s
                      .ok (some s2,
                        { st with errs := st.errs ++ [⟨.IncompatibleTypesError, pos⟩] })
                    else .ok (some s2, st)

/-- The `for a in node.args: self.visit(a)` loop of
`visit_function_syntax` (no scope restoration between parameters). -/
def anVisitArgs : Nat → List Stx → AnState → Res AnState
  | 0, _, _ => .error .fuelOut
  | _ + 1, [], st => .ok st
  | fuel + 1, a :: rest, st => do
      let (_, st) ← anVisit fuel (some a) st
      anVisitArgs fuel rest st

/-- The body loop of `visit_function_syntax`: track whether some directly
listed statement is a `GiveSyntax`, visit, and restore the current scope
after each statement. -/
def anVisitBody : Nat → List Stx → Nat → Bool → AnState → Res (Bool × AnState)
  | 0, _, _, _, _ => .error .fuelOut
  | _ + 1, [], _, hasGive, st => .ok (hasGive, st)
  | fuel + 1, s :: rest, depth, hasGive, st => do
      let hasGive := hasGive || isGiveStx s
      let (_, st) ← anVisit fuel (some s) st
      let st := { st with scopes := restoreTo depth st.scopes }
      anVisitBody fuel rest depth hasGive st

/-- The argument loop of `visit_function_call_syntax`, collecting the
annotated arguments. -/
def anVisitCallArgs : Nat → List (Option Stx) → List (Option Stx) → AnState →
    Res (List (Option Stx) × AnState)
  | 0, _, _, _ => .error .fuelOut
  | _ + 1, [], acc, st => .ok (acc, st)
  | fuel + 1, a :: rest, acc, st => do
      let (a2, st) ← anVisit fuel a st
      anVisitCallArgs fuel rest (acc ++ [a2]) st

/-- The statement loop of `visit_program_syntax`: visit each statement and
restore the current scope to the global scope. -/
def anVisitProgramLoop : Nat → List Stx → AnState → Res AnState
  | 0, _, _ => .error .fuelOut
  | _ + 1, [], st => .ok st
  | fuel + 1, s :: rest, st => do
      let (_, st) ← anVisit fuel (some s) st
      let st := { st with scopes := restoreTo 1 st.scopes }
      anVisitProgramLoop fuel rest st

end

/-- `SymbolTableBuilder.visit_program_syntax`: create the global scope and
visit every statement, restoring the current scope after each. -/
def anVisitProgram (fuel : Nat) (prog : Program) (errs : List Err) :
    Res AnState :=
  anVisitProgramLoop fuel prog.statements
    ⟨[⟨.str ['g', 'l', 'o', 'b', 'a', 'l'], Option.none, []⟩], errs⟩

/-! ### Runtime values and the interpreter (`interpreter.py`)

Runtime values circulating between `visit_*` methods are plain Python
values (ints, floats, bools, strings, `None`, or — for a variable bound to
a `function_` — its statement list).  Python floats are modelled as exact
rationals; no claim depends on IEEE rounding. -/

/-- A plain Python runtime value. -/
inductive RVal where
  | none
  | int (i : Int)
  | float (q : Rat)
  | bool (b : Bool)
  | str (cs : List Char)
  | stmts (l : List Stx)

/-- A `type_` instance stored in an activation record: its class, the
declaring name, the current value, and (for `function_`) the parameter
declarations. -/
structure Value where
  ty : Ty
  name : TokenVal
  val : RVal
  fnArgs : List Stx

/-- Python `float(lexeme)` for a `digits.digits` lexeme, as an exact
rational. -/
def ratOfFloatChars (cs : List Char) : Rat :=
  let intPart := cs.takeWhile (fun c => c ≠ '.')
  let frac := (cs.dropWhile (fun c => c ≠ '.')).drop 1
  (digitsToNat intPart : Rat) + (digitsToNat frac : Rat) / ((10 : Rat) ^ frac.length)

/-- The runtime value of a literal node's `val` attribute (`token.val`). -/
def rvalOfTokenVal : TokenVal → RVal
  | .none => .none
  | .int n => .int n
  | .floatChars cs => .float (ratOfFloatChars cs)
  | .str cs => .str cs
  | .bool b => .bool b

/-- Python truthiness, for `and` / `or`. -/
def truthy : RVal → Bool
  | .none => false
  | .int i => decide (i ≠ 0)
  | .float q => decide (q ≠ 0)
  | .bool b => b
  | .str cs => !cs.isEmpty
  | .stmts l => !l.isEmpty

/-- An int-like value (Python bools are ints). -/
def asIntLike : RVal → Option Int
  | .int i => some i
  | .bool b => some (if b then 1 else 0)
  | _ => Option.none

/-- A numeric value as a rational. -/
def asNumQ : RVal → Option Rat
  | .int i => some (i : Rat)
  | .bool b => some (if b then 1 else 0)
  | .float q => some q
  | _ => Option.none

/-- Python `left + right`. -/
def pyAdd (a b : RVal) : Res RVal :=
  match asIntLike a, asIntLike b with
  | some x, some y => .ok (.int (x + y))
  | _, _ =>
    match asNumQ a, asNumQ b with
    | some x, some y => .ok (.float (x + y))
    | _, _ =>
      match a, b with
      | .str x, .str y => .ok (.str (x ++ y))
      | _, _ => .error (.crash (.typeError "add"))

/-- Python `left - right`. -/
def pySub (a b : RVal) : Res RVal :=
  match asIntLike a, asIntLike b with
  | some x, some y => .ok (.int (x - y))
  | _, _ =>
    match asNumQ a, asNumQ b with
    | some x, some y => .ok (.float (x - y))
    | _, _ => .error (.crash (.typeError "sub"))

/-- Python `left * right` (including string repetition). -/
def pyMul (a b : RVal) : Res RVal :=
  match asIntLike a, asIntLike b with
  | some x, some y => .ok (.int (x * y))
  | _, _ =>
    match asNumQ a, asNumQ b with
    | some x, some y => .ok (.float (x * y))
    | _, _ =>
      match a, asIntLike b with
      | .str x, some n => .ok (.str (List.flatten (List.replicate n.toNat x)))
      | _, _ =>
        match asIntLike a, b with
        | some n, .str y => .ok (.str (List.flatten (List.replicate n.toNat y)))
        | _, _ => .error (.crash (.typeError "mul"))

/-- Python `left / right` (true division: the result is a float). -/
def pyDiv (a b : RVal) : Res RVal :=
  match asNumQ a, asNumQ b with
  | some x, some y =>
      if y = 0 then .error (.crash .zeroDivisionError)
      else .ok (.float (x / y))
  | _, _ => .error (.crash (.typeError "div"))

/-- The operator dispatch of `Interpreter.visit_binary_operation_syntax`;
an operator token outside the six handled kinds falls through and yields
Python `None`. -/
def applyBinOp (op : TokenType) (l r : RVal) : Res RVal :=
  match op with
  | .PLUS => pyAdd l r
  | .MINUS => pySub l r
  | .STAR => pyMul l r
  | .SLASH => pyDiv l r
  | .AMPERSAND_AMPERSAND => .ok (if truthy l then r else l)
  | .PIPE_PIPE => .ok (if truthy l then l else r)
  | _ => .ok .none

/-- An `ActivationRecord`: procedure name, nesting level and the member
dict.  The parent record is the next frame in the call-stack list (the
interpreter always creates records whose parent is the record below). -/
structure Frame where
  name : TokenVal
  nesting : Nat
  members : List (TokenVal × Value)

/-- Member dict lookup (`self.members.get(key)`). -/
def memGet : List (TokenVal × Value) → TokenVal → Option Value
  | [], _ => Option.none
  | (k0, v0) :: rest, k => if k0 = k then some v0 else memGet rest k

/-- Member dict assignment. -/
def memSet : List (TokenVal × Value) → TokenVal → Value →
    List (TokenVal × Value)
  | [], k, v => [(k, v)]
  | (k0, v0) :: rest, k, v =>
      if k0 = k then (k, v) :: rest else (k0, v0) :: memSet rest k v

/-- `ActivationRecord.__getitem__` along the parent chain: a local hit is
returned as is; otherwise the parent chain is searched and on the way back
each missing record stores a deep copy before returning it; a miss at the
root record raises `KeyError`.  Returns the resolved value and the updated
chain. -/
def argetFrames : List Frame → TokenVal → Res (Value × List Frame)
  | [], _ => .error (.crash .keyError)
  | f :: rest, key =>
      match memGet f.members key with
      | some v => .ok (v, f :: rest)
      | Option.none =>
          match rest with
          | [] => .error (.crash .keyError)
          | _ :: _ => do
              let (v, rest2) ← argetFrames rest key
              .ok (v, { f with members := memSet f.members key v } :: rest2)

mutual

/-- `Interpreter.visit` (the `ASTVisitor` dispatch).  The interpreter
defines handlers for declarations, assignments, variables, binary
operations, literals, function definitions, calls and `give`;
`ParenthesizedSyntax` falls back to the base-class `pass` stub (so a
parenthesized expression evaluates to Python `None` without visiting its
inner expression); `UnaryOperationSyntax` and `TypeSyntax` have no handler
at all and raise `AttributeError`.  The state is the call stack, topmost
record first. -/
def visitI : Nat → Option Stx → List Frame → Res (RVal × List Frame)
  | 0, _, _ => .error .fuelOut
  | fuel + 1, node, σ =>
    match node with
    | Option.none => .error (.crash (.attributeError "visit_none_type"))
    | some s =>
      match s with
      | .intLit t => .ok (rvalOfTokenVal t.val, σ)
      | .floatLit t => .ok (rvalOfTokenVal t.val, σ)
      | .boolLit t => .ok (rvalOfTokenVal t.val, σ)
      | .paren _ => .ok (.none, σ)
      | .unaryOp _ _ =>
          .error (.crash (.attributeError "visit_unary_operation_syntax"))
      | .typeS _ => .error (.crash (.attributeError "visit_type_syntax"))
      | .give _ expr => visitI fuel expr σ
      | .binOp l op r => do
          let (lv, σ) ← visitI fuel l σ
          let (rv, σ) ← visitI fuel r σ
          let v ← applyBinOp op.tokenType lv rv
          .ok (v, σ)
      | .variableS _ name _ =>
          match σ with
          | [] => .error (.crash .indexError)
          | _ :: _ => do
              let (v, σ) ← argetFrames σ name
              .ok (v.val, σ)
      | .decl vt name expr => do
          let tokv ← stxTokenOpt vt
          let varTy ← getTypeByTokenType tokv.tokenType
          let (v, σ) ← (match expr with
            | Option.none => .ok ((RVal.none), σ)
            | some e => visitI fuel (some e) σ)
          match σ with
          | [] => .error (.crash .indexError)
          | f :: rest =>
              .ok (.none,
                { f with members := memSet f.members name ⟨varTy, name, v, []⟩ } :: rest)
      | .assign v expr => do
          let name ← stxNameAttr v
          let (value, σ) ← visitI fuel expr σ
          match σ with
          | [] => .error (.crash .indexError)
          | _ :: _ => do
              let (var, σ2) ← argetFrames σ name
              match σ2 with
              | [] => .error (.crash .indexError)
              | f :: rest =>
                  .ok (.none,
                    { f with members := memSet f.members name { var with val := value } } :: rest)
      | .funcDef nameTok _gts stmts args =>
          match σ with
          | [] => .error (.crash .indexError)
          | f :: rest =>
              let fv : Value := ⟨.function, nameTok.val, .stmts stmts, args⟩
              .ok (.none, { f with members := memSet f.members nameTok.val fv } :: rest)
      | .funcCall v args _ => do
          let funcName ← stxNameAttr v
          match σ with
          | [] => .error (.crash .indexError)
          | parentTop :: _ => do
              let nesting := parentTop.nesting + 1
              let (funcSym, σ) ← argetFrames σ funcName
              let argDecls ← (if funcSym.ty = .function then .ok funcSym.fnArgs
                else .error (.crash (.attributeError "args")))
              let (ar, σ) ← bindArgs fuel (argDecls.zip args)
                ⟨funcName, nesting, []⟩ σ
              let body ← (match funcSym.val with
                | .stmts l => .ok l
                | _ => .error (.crash (.typeError "iteration")))
              let (give, σ2) ← execBody fuel body (ar :: σ)
              match σ2 with
              | [] => .error (.crash .indexError)
              | _ :: rest2 => .ok (give, rest2)

/-- The argument-binding loop of `visit_function_call_syntax`: each pair
of `zip(arg_decls, passed_args)` evaluates the passed argument in the
caller's context and binds it (wrapped as the declared type) in the new
record. -/
def bindArgs : Nat → List (Stx × Option Stx) → Frame → List Frame →
    Res (Frame × List Frame)
  | 0, _, _, _ => .error .fuelOut
  | _ + 1, [], ar, σ => .ok (ar, σ)
  | fuel + 1, (argDecl, passed) :: rest, ar, σ => do
      let vt ← (match argDecl with
        | .decl vtOpt _ _ => stxTokenOpt vtOpt
        | _ => .error (.crash (.attributeError "var_type")))
      let varTy ← getTypeByTokenType vt.tokenType
      let name ← stxNameAttr argDecl
      let (v, σ) ← visitI fuel passed σ
      bindArgs fuel rest
        { ar with members := memSet ar.members name ⟨varTy, name, v, []⟩ } σ

/-- The body scan of `visit_function_call_syntax`: execute the callee's
directly listed statements in order; a statement that is directly a
`GiveSyntax` is visited and ends the scan with its value; running off the
end leaves the initial `give_value = None`. -/
def execBody : Nat → List Stx → List Frame → Res (RVal × List Frame)
  | 0, _, _ => .error .fuelOut
  | _ + 1, [], σ => .ok (.none, σ)
  | fuel + 1, s :: rest, σ =>
      if isGiveStx s then visitI fuel (some s) σ
      else do
        let (_, σ) ← visitI fuel (some s) σ
        execBody fuel rest σ

/-- The statement loop of `Interpreter.visit_program_syntax` (no `give`
short-circuit at top level). -/
def interpProgramLoop : Nat → List Stx → List Frame → Res (List Frame)
  | 0, _, _ => .error .fuelOut
  | _ + 1, [], σ => .ok σ
  | fuel + 1, s :: rest, σ => do
      let (_, σ) ← visitI fuel (some s) σ
      interpProgramLoop fuel rest σ

end

/-- `Interpreter.__init__` / `visit_program_syntax`: push the program's
activation record (nesting level 1, no parent), execute every top-level
statement, pop.  Returns the program's record as it stood at the end of
execution together with the remaining stack after the pop. -/
def interpProgram (fuel : Nat) (prog : Program) : Res (Frame × List Frame) := do
  let σ ← interpProgramLoop fuel prog.statements [⟨prog.name, 1, []⟩]
  match σ with
  | [] => .error (.crash .indexError)
  | top :: rest => .ok (top, rest)

/-! ### The pipeline gate (`boink.py`) -/

/-- What `main` does after parsing and analysis: run the interpreter, or
report the accumulated errors. -/
inductive MainOutcome where
  | interpreted (result : Res (Frame × List Frame))
  | reported (errs : List Err)

/-- `boink.main` for `run`: lex/parse (the parser drives the lexer),
analyze threading the shared error sink, then interpret only if the sink
is empty, otherwise report every accumulated error.  A Python exception
anywhere aborts the whole run. -/
def mainRun (fuel : Nat) (text : List Char) : Res MainOutcome := do
  let (prog, σ) ← parseSource fuel (.str ['p']) text
  let st ← anVisitProgram fuel prog σ.errs
  if st.errs.isEmpty then .ok (.interpreted (interpProgram fuel prog))
  else .ok (.reported st.errs)

/-! ### Binding-preservation predicates and concrete data for theorems -/

/-- One record extends another when every existing binding is still
present with the same value (new keys may have been added). -/
def MemExt (f g : Frame) : Prop :=
  ∀ k v, memGet f.members k = some v → memGet g.members k = some v

/-- Pointwise `MemExt` between two stacks of equal shape. -/
def StackExt : List Frame → List Frame → Prop
  | [], [] => True
  | f :: fs, g :: gs => MemExt f g ∧ StackExt fs gs
  | _, _ => False

/-- Scenario A of the specification. -/
def srcScenarioA : List Char := "int a = 1\nint c = a + 1\n".data

/-- A minimal program whose first statement is an `if`. -/
def srcIfProgram : List Char := "if (true)\n;\n".data

/-- A function with a declared give type and no `give` statement. -/
def srcNoGive : List Char := "fn f() -> int\nint a\n;\n".data

/-- A two-parameter function called with arguments whose types match the
parameters position by position. -/
def srcCallArgs : List Char := "fn f(int a, float b)\nint c\n;\nf(1, 1.5)\n".data

/-- A declaration initialized with a unary minus expression. -/
def srcUnaryDecl : List Char := "int a = -1\n".data

/-- Scenario C of the specification (one type error at the assignment). -/
def srcScenarioC : List Char := "int a\na = true\n".data

/-- The program of the `c8_gate` application, projected from a parse
result (used so the witness can name the parsed program without spelling
out its tree). -/
def progOfRes (r : Res (Program × PState)) : Program :=
  match r with
  | .ok (p, _) => p
  | .error _ => ⟨.none, []⟩

/-- The parser state projected from a parse result. -/
def pstateOfRes (r : Res (Program × PState)) : PState :=
  match r with
  | .ok (_, σ) => σ
  | .error _ => ⟨[], 0, ⟨.EOF, .none, 0⟩, []⟩

/-- The analyzer state projected from an analysis result. -/
def anStOfRes (r : Res AnState) : AnState :=
  match r with
  | .ok st => st
  | .error _ => ⟨[], []⟩

/-- Witness data: the key and value of a variable bound in an ancestor
record. -/
def wKeyX : TokenVal := .str ['x']

/-- Witness data: an `int_` value bound under `wKeyX`. -/
def wValX : Value := ⟨.int, wKeyX, .int 1, []⟩

/-- Witness data: an empty callee record. -/
def wFrameCallee : Frame := ⟨.str ['f'], 2, []⟩

/-- Witness data: a program record binding `x`. -/
def wFrameProg : Frame := ⟨.str ['p'], 1, [(wKeyX, wValX)]⟩

/-- Witness data: a `give 4` statement. -/
def wGiveStmt : Stx :=
  .give ⟨.GIVE, .str ['g', 'i', 'v', 'e'], 0⟩
    (some (.intLit ⟨.INT_LITERAL, .int 4, 5⟩))

/-- Witness data: a declaration statement `int y`, which is not a give. -/
def wDeclStmt : Stx :=
  .decl (some (.typeS ⟨.INT_TYPE, .str ['i', 'n', 't'], 0⟩)) (.str ['y'])
    Option.none

/-- Witness data: an assignment `x = 2` (mutating an inherited binding). -/
def wAssignStmt : Stx :=
  .assign (.variableS ⟨.WORD, wKeyX, 0⟩ wKeyX Option.none)
    (some (.intLit ⟨.INT_LITERAL, .int 2, 4⟩))

/-- The value component of a successful interpreter result (used by
witnesses to name a computed result without spelling it out). -/
def okVal (r : Res (RVal × List Frame)) : RVal :=
  match r with
  | .ok (v, _) => v
  | .error _ => .str ['?']

/-- The stack component of a successful interpreter result. -/
def okStack (r : Res (RVal × List Frame)) : List Frame :=
  match r with
  | .ok (_, σ) => σ
  | .error _ => []

/-! ## Theorems -/

/-- Helper: binding a successful result applies the continuation. -/
theorem res_bind_ok {α β : Type} (a : α) (f : α → Res β) :
    (Except.ok a : Res α) >>= f = f a := rfl

/-- Helper: binding a failed result fails. -/
theorem res_bind_err {α β : Type} (e : Fail) (f : α → Res β) :
    (Except.error e : Res α) >>= f = Except.error e := rfl

/-- Helper: `parse_if` can never return normally, because the
`IfSyntax(token, expr)` construction raises `NameError` on every path
that reaches it. -/
theorem parseIf_never_ok (fuel : Nat) (σ : PState) (r : Stx × PState) :
    parseIf fuel σ ≠ .ok r := by
  match fuel with
  | 0 => simp [parseIf]
  | fuel + 1 =>
      unfold parseIf
      cases h : parseExpression fuel (consume .L_PAR (consume .IF σ)) with
      | error e => simp [h, res_bind_err]
      | ok v => simp [h, res_bind_ok]

/-- Helper: the trailing statement dispatch on a stream whose current
token is `if` can never return normally. -/
theorem parseStatementTail_if_never_ok (fuel : Nat) (σ : PState)
    (r : Option Stx × PState) (h : σ.tok.tokenType = .IF) :
    parseStatementTail fuel σ ≠ .ok r := by
  match fuel with
  | 0 => simp [parseStatementTail]
  | fuel + 1 =>
      unfold parseStatementTail
      rw [h]
      simp only [reduceCtorEq, if_false]
      cases h2 : parseIf fuel σ with
      | error e => simp [h2, res_bind_err]
      | ok v => exact absurd h2 (parseIf_never_ok fuel σ v)

/-- C2: the specification claims that a statement beginning with the
`if` keyword parses into an If node holding the condition and body and is
then type-checked.  In the code `parse_if` crashes with
`NameError: IfSyntax` (the class exists nowhere), so no token stream whose
next statement begins with `if` ever yields a statement node, and the
pipeline on the minimal if-program aborts with that `NameError` instead of
analyzing anything. -/
theorem claim_C2_if_statement_parsing :
    (∀ fuel σ r, σ.tok.tokenType = .IF → parseStatement fuel σ ≠ .ok r) ∧
    mainRun 200 srcIfProgram = .error (.crash (.nameError "IfSyntax")) := by
  constructor
  · intro fuel σ r h
    match fuel with
    | 0 => simp [parseStatement]
    | fuel + 1 =>
        unfold parseStatement
        rw [h]
        simp only [isTypeToken, Bool.false_eq_true, if_false, reduceCtorEq]
        exact parseStatementTail_if_never_ok fuel σ r h
  · rfl

/-- C2 witness: a concrete if-headed parser state on which
`parse_statement` does not produce a node. -/
theorem claim_C2_witness :
    parseStatement 50 (initPState srcIfProgram) ≠
      .ok (Option.none, initPState srcIfProgram) :=
  claim_C2_if_statement_parsing.1 50 (initPState srcIfProgram)
    (Option.none, initPState srcIfProgram) rfl

/-- C1: the claim says scenario A (`int a = 1\nint c = a + 1\n`) passes
the whole pipeline with no errors and leaves `a = 1`, `c = 2`.  In the
code, checking the declaration of `c` calls
`BinaryOperationSyntax.get_type`, which invokes `lType.additionType` —
an attribute that does not exist (the classes define `addition_type`) —
so the pipeline aborts with `AttributeError` during semantic analysis and
nothing is interpreted. -/
theorem claim_C1_scenarioA_crashes :
    mainRun 200 srcScenarioA = .error (.crash (.attributeError "additionType")) :=
  rfl

/-- C3: the claim says a function with a declared return type and no
directly listed `give` gets a recorded no-give error, with analysis
continuing.  In the code the error branch evaluates the undefined global
name `NoGiveError` (`errors.py` defines `NotGivenError`), so the analysis
aborts with `NameError` instead of recording anything. -/
theorem claim_C3_no_give_crashes :
    mainRun 200 srcNoGive = .error (.crash (.nameError "NoGiveError")) :=
  rfl

/-- C4: the static promotion rule for arithmetic on the literal types.
Addition and subtraction follow the claimed table (`Int op Int → Int`,
any `Float` operand promotes), and `/` always yields `Float`; but
`int_.multiplication_type` on an `int_` right operand returns `float_`,
contradicting the claimed `Int * Int → Int`. -/
theorem claim_C4_promotion_table :
    (addition_type .int .int = .ok (some .int) ∧
      addition_type .int .float = .ok (some .float) ∧
      addition_type .float .int = .ok (some .float) ∧
      addition_type .float .float = .ok (some .float)) ∧
    (subtraction_type .int .int = .ok (some .int) ∧
      subtraction_type .int .float = .ok (some .float) ∧
      subtraction_type .float .int = .ok (some .float) ∧
      subtraction_type .float .float = .ok (some .float)) ∧
    (division_type .int .int = .ok (some .float) ∧
      division_type .int .float = .ok (some .float) ∧
      division_type .float .int = .ok (some .float) ∧
      division_type .float .float = .ok (some .float)) ∧
    (multiplication_type .int .float = .ok (some .float) ∧
      multiplication_type .float .int = .ok (some .float) ∧
      multiplication_type .float .float = .ok (some .float)) ∧
    multiplication_type .int .int = .ok (some .float) :=
  ⟨⟨rfl, rfl, rfl, rfl⟩, ⟨rfl, rfl, rfl, rfl⟩, ⟨rfl, rfl, rfl, rfl⟩,
    ⟨rfl, rfl, rfl⟩, rfl⟩

/-- C5: the claim says a call whose argument types match the parameter
types position by position records no `IncompatibleTypesError`.  The code
builds `arg_types` as `[call_arg_type.get_type() for a in node.args]`,
replicating the *last* argument's type, so `fn f(int a, float b)` called
as `f(1, 1.5)` records exactly one `IncompatibleTypesError` (the last
argument's `float` is compared against the first parameter's `int`) even
though the arguments match positionally. -/
theorem claim_C5_positional_check_broken :
    mainRun 200 srcCallArgs =
      .ok (.reported [⟨.IncompatibleTypesError, 29⟩]) :=
  rfl

/-- C10: the visitor dispatch shared by the analyzer and the interpreter
has no handler for `UnaryOperationSyntax`: visiting a unary node in
either walker raises `AttributeError` at the dispatch (before the operand
is analyzed or evaluated and before any error is recorded), and the
pipeline on `int a = -1` aborts that way during analysis. -/
theorem claim_C10_unary_visit_undefined :
    (∀ fuel op e st, anVisit (fuel + 1) (some (.unaryOp op e)) st =
      .error (.crash (.attributeError "visit_unary_operation_syntax"))) ∧
    (∀ fuel op e σ, visitI (fuel + 1) (some (.unaryOp op e)) σ =
      .error (.crash (.attributeError "visit_unary_operation_syntax"))) ∧
    mainRun 200 srcUnaryDecl =
      .error (.crash (.attributeError "visit_unary_operation_syntax")) :=
  ⟨fun _ _ _ _ => rfl, fun _ _ _ _ => rfl, rfl⟩

/-- Helper: the digit-run loop, run with a sufficient step counter, stays
at or after its start, covers exactly a run of digits, stops at the first
non-digit, and makes progress when the first character is a digit. -/
theorem takeDigitsAux_spec (k : Nat) (text : List Char) : ∀ pos : Nat,
    text.length ≤ pos + k →
    pos ≤ (takeDigitsAux k text pos).2 ∧
    (∀ i, pos ≤ i → i < (takeDigitsAux k text pos).2 →
      ∃ c, text.get? i = some c ∧ c.isDigit = true) ∧
    (∀ c, text.get? (takeDigitsAux k text pos).2 = some c →
      c.isDigit = false) ∧
    (∀ c, text.get? pos = some c → c.isDigit = true →
      pos < (takeDigitsAux k text pos).2) := by
  induction k with
  | zero =>
      intro pos hk
      have hnone : text.get? pos = Option.none := by
        rw [List.get?_eq_getElem? text pos]
        exact List.getElem?_eq_none (by omega)
      have hr : takeDigitsAux 0 text pos = ([], pos) := rfl
      rw [hr]
      refine ⟨Nat.le_refl _, ?_, ?_, ?_⟩
      · intro i h1 h2
        have h3 : i < pos := h2
        omega
      · intro c hc
        have hc2 : text.get? pos = some c := hc
        rw [hnone] at hc2
        cases hc2
      · intro c hc
        rw [hnone] at hc
        cases hc
  | succ k ih =>
      intro pos hk
      cases hc : text.get? pos with
      | none =>
          have hr : takeDigitsAux (k + 1) text pos = ([], pos) := by
            simp only [takeDigitsAux]
            rw [hc]
          rw [hr]
          refine ⟨Nat.le_refl _, ?_, ?_, ?_⟩
          · intro i h1 h2
            have h3 : i < pos := h2
            omega
          · intro c h
            have h2 : text.get? pos = some c := h
            rw [hc] at h2
            cases h2
          · intro c h
            cases h
      | some c =>
          by_cases hd : c.isDigit = true
          · have ihp := ih (pos + 1) (by omega)
            have hr : takeDigitsAux (k + 1) text pos =
                (c :: (takeDigitsAux k text (pos + 1)).1,
                  (takeDigitsAux k text (pos + 1)).2) := by
              simp only [takeDigitsAux]
              rw [hc]
              simp [hd]
            rw [hr]
            refine ⟨?_, ?_, ?_, ?_⟩
            · show pos ≤ (takeDigitsAux k text (pos + 1)).2
              have h1 := ihp.1
              omega
            · intro i h1 h2
              have h3 : i < (takeDigitsAux k text (pos + 1)).2 := h2
              rcases Nat.eq_or_lt_of_le h1 with heq | hlt
              · refine ⟨c, ?_, hd⟩
                rw [← heq]
                exact hc
              · exact ihp.2.1 i hlt h3
            · intro c2 h
              exact ihp.2.2.1 c2 h
            · intro c2 _ _
              show pos < (takeDigitsAux k text (pos + 1)).2
              have h1 := ihp.1
              omega
          · have hr : takeDigitsAux (k + 1) text pos = ([], pos) := by
              unfold takeDigitsAux
              rw [hc]
              simp [hd]
            rw [hr]
            refine ⟨Nat.le_refl _, ?_, ?_, ?_⟩
            · intro i h1 h2
              have h3 : i < pos := h2
              omega
            · intro c2 h
              have h2 : text.get? pos = some c2 := h
              rw [hc] at h2
              cases h2
              simpa using hd
            · intro c2 h hdig
              cases h
              exact absurd hdig hd

/-- Helper: the four digit-run facts for `takeDigits` itself. -/
theorem takeDigits_spec (text : List Char) (pos : Nat) :
    pos ≤ (takeDigits text pos).2 ∧
    (∀ i, pos ≤ i → i < (takeDigits text pos).2 →
      ∃ c, text.get? i = some c ∧ c.isDigit = true) ∧
    (∀ c, text.get? (takeDigits text pos).2 = some c → c.isDigit = false) ∧
    (∀ c, text.get? pos = some c → c.isDigit = true →
      pos < (takeDigits text pos).2) :=
  takeDigitsAux_spec (text.length - pos) text pos (by omega)

/-- C9: starting at a digit, the lexer consumes a maximal digit run; if
the character immediately after the run is `.` it consumes the dot and a
second maximal digit run and produces one FLOAT_LITERAL token covering
everything (so a trailing dot with no digits after it is absorbed into
the float token, never emitted on its own); otherwise it produces one
INT_LITERAL token ending exactly at the end of the run. -/
theorem claim_C9_number_token (text : List Char) (pos : Nat) (c0 : Char)
    (h0 : text.get? pos = some c0) (hd0 : c0.isDigit = true) :
    pos < (takeDigits text pos).2 ∧
    (∀ i, pos ≤ i → i < (takeDigits text pos).2 →
      ∃ c, text.get? i = some c ∧ c.isDigit = true) ∧
    (∀ c, text.get? (takeDigits text pos).2 = some c → c.isDigit = false) ∧
    (if text.get? (takeDigits text pos).2 = some '.' then
      getNextNumberToken text pos =
        (⟨.FLOAT_LITERAL,
          .floatChars ((takeDigits text pos).1 ++
            '.' :: (takeDigits text ((takeDigits text pos).2 + 1)).1), pos⟩,
          (takeDigits text ((takeDigits text pos).2 + 1)).2) ∧
      (takeDigits text pos).2 + 1 ≤
        (takeDigits text ((takeDigits text pos).2 + 1)).2 ∧
      (∀ i, (takeDigits text pos).2 + 1 ≤ i →
        i < (takeDigits text ((takeDigits text pos).2 + 1)).2 →
        ∃ c, text.get? i = some c ∧ c.isDigit = true) ∧
      (∀ c, text.get? (takeDigits text ((takeDigits text pos).2 + 1)).2 =
        some c → c.isDigit = false)
    else
      getNextNumberToken text pos =
        (⟨.INT_LITERAL, .int (digitsToNat (takeDigits text pos).1), pos⟩,
          (takeDigits text pos).2)) := by
  have hs := takeDigits_spec text pos
  refine ⟨hs.2.2.2 c0 h0 hd0, hs.2.1, hs.2.2.1, ?_⟩
  by_cases hdot : text.get? (takeDigits text pos).2 = some '.'
  · rw [if_pos hdot]
    have hs2 := takeDigits_spec text ((takeDigits text pos).2 + 1)
    refine ⟨?_, by have := hs2.1; omega, hs2.2.1, hs2.2.2.1⟩
    simp only [getNextNumberToken]
    rw [if_pos (show currentChar text (takeDigits text pos).2 = some '.'
      from hdot)]
  · rw [if_neg hdot]
    simp only [getNextNumberToken]
    rw [if_neg (show ¬currentChar text (takeDigits text pos).2 = some '.'
      from hdot)]

/-- C9 witness: the claim instantiated on the text `12.5x` at position
0 (a float literal whose first digit run is nonempty). -/
theorem claim_C9_witness :
    0 < (takeDigits "12.5x".data 0).2 :=
  (claim_C9_number_token "12.5x".data 0 '1' rfl (by decide)).1

/-- Helper: successful bind inversion. -/
theorem res_bind_eq_ok {α β : Type} {x : Res α} {f : α → Res β} {b : β}
    (h : x >>= f = .ok b) : ∃ a, x = .ok a ∧ f a = .ok b := by
  cases x with
  | error e => rw [res_bind_err] at h; cases h
  | ok a => exact ⟨a, rfl, by rw [res_bind_ok] at h; exact h⟩

/-- Helper: looking up the freshly set key. -/
theorem memGet_memSet_same (m : List (TokenVal × Value)) (k : TokenVal)
    (v : Value) : memGet (memSet m k v) k = some v := by
  induction m with
  | nil => simp [memSet, memGet]
  | cons p rest ih =>
      by_cases hk : p.1 = k
      · simp [memSet, hk, memGet]
      · simp only [memSet]
        rw [if_neg hk]
        simp only [memGet]
        rw [if_neg hk]
        exact ih

/-- Helper: looking up another key after a set. -/
theorem memGet_memSet_ne (m : List (TokenVal × Value)) (k k2 : TokenVal)
    (v : Value) (h : k2 ≠ k) : memGet (memSet m k v) k2 = memGet m k2 := by
  have hne : ¬(k = k2) := fun he => h he.symm
  induction m with
  | nil =>
      simp only [memSet, memGet]
      rw [if_neg hne]
  | cons p rest ih =>
      by_cases hk : p.1 = k
      · simp only [memSet]
        rw [if_pos hk]
        simp only [memGet]
        rw [if_neg hne, if_neg (show ¬(p.1 = k2) from fun he => hne (hk.symm.trans he))]
      · simp only [memSet]
        rw [if_neg hk]
        simp only [memGet]
        by_cases h2 : p.1 = k2
        · rw [if_pos h2, if_pos h2]
        · rw [if_neg h2, if_neg h2, ih]

/-- Helper: record extension is reflexive. -/
theorem memExtRefl (f : Frame) : MemExt f f := fun _ _ h => h

/-- Helper: record extension is transitive. -/
theorem memExtTrans {f g h : Frame} (h1 : MemExt f g) (h2 : MemExt g h) :
    MemExt f h := fun k v hk => h2 k v (h1 k v hk)

/-- Helper: inserting an absent key extends a record. -/
theorem memExtInsertAbsent (f : Frame) (k : TokenVal) (v : Value)
    (h : memGet f.members k = Option.none) :
    MemExt f { f with members := memSet f.members k v } := by
  intro k2 v2 hk2
  by_cases he : k2 = k
  · subst he
    rw [h] at hk2
    cases hk2
  · show memGet (memSet f.members k v) k2 = some v2
    rw [memGet_memSet_ne f.members k k2 v he]
    exact hk2

/-- Helper: stack extension is reflexive. -/
theorem stackExtRefl (σ : List Frame) : StackExt σ σ := by
  induction σ with
  | nil => trivial
  | cons f fs ih => exact ⟨memExtRefl f, ih⟩

/-- Helper: stack extension is transitive. -/
theorem stackExtTrans : ∀ {a b c : List Frame},
    StackExt a b → StackExt b c → StackExt a c
  | [], [], [], _, _ => trivial
  | _ :: _, _ :: _, _ :: _, ⟨h1, t1⟩, ⟨h2, t2⟩ =>
      ⟨memExtTrans h1 h2, stackExtTrans t1 t2⟩
  | [], [], _ :: _, _, h => nomatch h
  | [], _ :: _, _, h, _ => nomatch h
  | _ :: _, [], _, h, _ => nomatch h
  | _ :: _, _ :: _, [], _, h => nomatch h

/-- Helper: stack extension on the tails. -/
theorem stackExtTail : ∀ {a b : List Frame},
    StackExt a b → StackExt a.tail b.tail
  | [], [], _ => trivial
  | _ :: _, _ :: _, ⟨_, t⟩ => t
  | [], _ :: _, h => nomatch h
  | _ :: _, [], h => nomatch h

/-- Helper: extension-related stacks have equal length. -/
theorem stackExtLength : ∀ {a b : List Frame},
    StackExt a b → a.length = b.length
  | [], [], _ => rfl
  | _ :: _, _ :: _, ⟨_, t⟩ => by
      simp only [List.length_cons]
      exact congrArg (· + 1) (stackExtLength t)
  | [], _ :: _, h => nomatch h
  | _ :: _, [], h => nomatch h

/-- Helper: the copy-on-access lookup only extends the chain (every
existing binding in every record is untouched) and keeps its length. -/
theorem argetFrames_ext : ∀ (σ : List Frame) (k : TokenVal) (v : Value)
    (σ2 : List Frame), argetFrames σ k = .ok (v, σ2) →
    σ2.length = σ.length ∧ StackExt σ σ2 := by
  intro σ
  induction σ with
  | nil => intro k v σ2 h; simp [argetFrames] at h
  | cons f rest ih =>
      intro k v σ2 h
      simp only [argetFrames] at h
      cases hm : memGet f.members k with
      | some v0 =>
          rw [hm] at h
          cases h
          exact ⟨rfl, stackExtRefl _⟩
      | none =>
          rw [hm] at h
          cases rest with
          | nil => cases h
          | cons g rest0 =>
              obtain ⟨⟨v1, rest2⟩, h1, h2⟩ := res_bind_eq_ok h
              cases h2
              have ihr := ih k v1 rest2 h1
              refine ⟨?_, memExtInsertAbsent f k v1 hm, ihr.2⟩
              show rest2.length + 1 = (g :: rest0).length + 1
              rw [ihr.1]

/-- Helper (the central frame-effect invariant): a successful step of the
interpreter preserves the length of the call stack and never changes an
existing binding in any record below the topmost one. -/
theorem interpPreserve (fuel : Nat) :
    (∀ node σ v σ2, visitI fuel node σ = .ok (v, σ2) →
      σ2.length = σ.length ∧ StackExt σ.tail σ2.tail) ∧
    (∀ ps ar σ ar2 σ2, bindArgs fuel ps ar σ = .ok (ar2, σ2) →
      σ2.length = σ.length ∧ StackExt σ.tail σ2.tail) ∧
    (∀ stmts σ v σ2, execBody fuel stmts σ = .ok (v, σ2) →
      σ2.length = σ.length ∧ StackExt σ.tail σ2.tail) := by
  induction fuel with
  | zero =>
      refine ⟨?_, ?_, ?_⟩
      · intro node σ v σ2 h; simp [visitI] at h
      · intro ps ar σ ar2 σ2 h; simp [bindArgs] at h
      · intro stmts σ v σ2 h; simp [execBody] at h
  | succ fuel ih =>
      obtain ⟨ihV, ihB, ihE⟩ := ih
      have hV : ∀ node σ v σ2, visitI (fuel + 1) node σ = .ok (v, σ2) →
          σ2.length = σ.length ∧ StackExt σ.tail σ2.tail := by
        intro node σ v σ2 h
        cases node with
        | none => simp [visitI] at h
        | some s =>
          cases s with
          | intLit t =>
              simp only [visitI] at h
              cases h
              exact ⟨rfl, stackExtRefl _⟩
          | floatLit t =>
              simp only [visitI] at h
              cases h
              exact ⟨rfl, stackExtRefl _⟩
          | boolLit t =>
              simp only [visitI] at h
              cases h
              exact ⟨rfl, stackExtRefl _⟩
          | paren e =>
              simp only [visitI] at h
              cases h
              exact ⟨rfl, stackExtRefl _⟩
          | unaryOp op e => simp [visitI] at h
          | typeS t => simp [visitI] at h
          | give tok expr =>
              simp only [visitI] at h
              exact ihV expr σ v σ2 h
          | binOp l op r =>
              simp only [visitI] at h
              obtain ⟨⟨lv, σa⟩, h1, h⟩ := res_bind_eq_ok h
              obtain ⟨⟨rv, σb⟩, h2, h⟩ := res_bind_eq_ok h
              obtain ⟨bv, h3, h⟩ := res_bind_eq_ok h
              cases h
              have e1 := ihV l σ lv σa h1
              have e2 := ihV r σa rv σb h2
              exact ⟨e2.1.trans e1.1, stackExtTrans e1.2 e2.2⟩
          | variableS tok name vt =>
              simp only [visitI] at h
              cases σ with
              | nil => cases h
              | cons f rest =>
                  obtain ⟨⟨vv, σb⟩, h1, h⟩ := res_bind_eq_ok h
                  cases h
                  have e1 := argetFrames_ext (f :: rest) name vv σb h1
                  exact ⟨e1.1, stackExtTail e1.2⟩
          | decl vt name expr =>
              simp only [visitI] at h
              obtain ⟨tokv, h1, h⟩ := res_bind_eq_ok h
              obtain ⟨varTy, h2, h⟩ := res_bind_eq_ok h
              obtain ⟨⟨v1, σa⟩, h3, h⟩ := res_bind_eq_ok h
              have e1 : σa.length = σ.length ∧ StackExt σ.tail σa.tail := by
                cases expr with
                | none => cases h3; exact ⟨rfl, stackExtRefl _⟩
                | some e => exact ihV (some e) σ v1 σa h3
              cases σa with
              | nil => cases h
              | cons f rest =>
                  cases h
                  exact ⟨e1.1, e1.2⟩
          | assign av expr =>
              simp only [visitI] at h
              obtain ⟨name, h1, h⟩ := res_bind_eq_ok h
              obtain ⟨⟨v1, σa⟩, h2, h⟩ := res_bind_eq_ok h
              have e1 := ihV expr σ v1 σa h2
              cases σa with
              | nil => cases h
              | cons f rest =>
                  obtain ⟨⟨var, σb⟩, h3, h⟩ := res_bind_eq_ok h
                  have e2 := argetFrames_ext (f :: rest) name var σb h3
                  cases σb with
                  | nil => cases h
                  | cons f2 rest2 =>
                      cases h
                      refine ⟨?_, ?_⟩
                      · show rest2.length + 1 = σ.length
                        have l2 : rest2.length + 1 = rest.length + 1 := e2.1
                        have l1 : rest.length + 1 = σ.length := e1.1
                        omega
                      · have t2 : StackExt rest rest2 := stackExtTail e2.2
                        exact stackExtTrans e1.2 t2
          | funcDef nameTok gts stmts args =>
              simp only [visitI] at h
              cases σ with
              | nil => cases h
              | cons f rest =>
                  cases h
                  exact ⟨rfl, stackExtRefl _⟩
          | funcCall cv args vt =>
              simp only [visitI] at h
              obtain ⟨name, h1, h⟩ := res_bind_eq_ok h
              cases σ with
              | nil => cases h
              | cons pf prest =>
                  obtain ⟨⟨fsym, σa⟩, h2, h⟩ := res_bind_eq_ok h
                  obtain ⟨argDecls, h3, h⟩ := res_bind_eq_ok h
                  obtain ⟨⟨ar, σb⟩, h4, h⟩ := res_bind_eq_ok h
                  obtain ⟨body, h5, h⟩ := res_bind_eq_ok h
                  obtain ⟨⟨give, σc⟩, h6, h⟩ := res_bind_eq_ok h
                  cases σc with
                  | nil => cases h
                  | cons top2 rest2 =>
                      have hh : (Except.ok (give, rest2) : Res (RVal × List Frame)) =
                        .ok (v, σ2) := h
                      rw [Except.ok.injEq, Prod.mk.injEq] at hh
                      obtain ⟨hv, hσ⟩ := hh
                      subst hσ
                      have ea := argetFrames_ext (pf :: prest) name fsym σa h2
                      have eb := ihB (argDecls.zip args)
                        ⟨name, pf.nesting + 1, []⟩ σa ar σb h4
                      have ee := ihE body (ar :: σb) give (top2 :: rest2) h6
                      refine ⟨?_, ?_⟩
                      · show rest2.length = prest.length + 1
                        have l3 : rest2.length + 1 = σb.length + 1 := ee.1
                        have l2 : σb.length = σa.length := eb.1
                        have l1 : σa.length = prest.length + 1 := ea.1
                        omega
                      · have s1 : StackExt prest σa.tail := stackExtTail ea.2
                        have s2 : StackExt σa.tail σb.tail := eb.2
                        have s3 : StackExt σb rest2 := ee.2
                        have s4 : StackExt σb.tail rest2.tail := stackExtTail s3
                        exact stackExtTrans (stackExtTrans s1 s2) s4
      refine ⟨hV, ?_, ?_⟩
      · intro ps ar σ ar2 σ2 h
        cases ps with
        | nil =>
            simp only [bindArgs] at h
            cases h
            exact ⟨rfl, stackExtRefl _⟩
        | cons p rest =>
            obtain ⟨ad, passed⟩ := p
            simp only [bindArgs] at h
            obtain ⟨vt, h1, h⟩ := res_bind_eq_ok h
            obtain ⟨varTy, h2, h⟩ := res_bind_eq_ok h
            obtain ⟨name, h3, h⟩ := res_bind_eq_ok h
            obtain ⟨⟨v1, σa⟩, h4, h⟩ := res_bind_eq_ok h
            have e1 := ihV passed σ v1 σa h4
            have e2 := ihB rest _ σa ar2 σ2 h
            exact ⟨e2.1.trans e1.1, stackExtTrans e1.2 e2.2⟩
      · intro stmts σ v σ2 h
        cases stmts with
        | nil =>
            simp only [execBody] at h
            cases h
            exact ⟨rfl, stackExtRefl _⟩
        | cons s rest =>
            simp only [execBody] at h
            by_cases hg : isGiveStx s = true
            · rw [if_pos hg] at h
              exact ihV (some s) σ v σ2 h
            · rw [if_neg hg] at h
              obtain ⟨⟨v1, σa⟩, h1, h⟩ := res_bind_eq_ok h
              have e1 := ihV (some s) σ v1 σa h1
              have e2 := ihE rest σa v σ2 h
              exact ⟨e2.1.trans e1.1, stackExtTrans e1.2 e2.2⟩

/-- Helper: the body scan never looks past the first directly listed
give statement. -/
theorem execBody_skip_rest (pre : List Stx) : ∀ (fuel : Nat) (tok : Token)
    (e : Option Stx) (rest : List Stx) (σ : List Frame),
    (∀ s ∈ pre, isGiveStx s = false) →
    execBody fuel (pre ++ Stx.give tok e :: rest) σ =
      execBody fuel (pre ++ [Stx.give tok e]) σ := by
  induction pre with
  | nil =>
      intro fuel tok e rest σ _
      cases fuel with
      | zero => rfl
      | succ f => rfl
  | cons s pre ih =>
      intro fuel tok e rest σ hpre
      have hs : isGiveStx s = false := hpre s (List.mem_cons_self s pre)
      cases fuel with
      | zero => rfl
      | succ f =>
          simp only [List.cons_append, execBody]
          rw [if_neg (by simp [hs]), if_neg (by simp [hs])]
          congr 1
          funext p
          obtain ⟨v1, σ1⟩ := p
          exact ih f tok e rest σ1
            (fun s2 hs2 => hpre s2 (List.mem_cons_of_mem s hs2))

/-- Helper: when the scan reaches the first directly listed give, the
call's result value is exactly that give's visit result. -/
theorem execBody_give_value (pre : List Stx) : ∀ (fuel : Nat) (tok : Token)
    (e : Option Stx) (rest : List Stx) (σ : List Frame) (v : RVal)
    (σ2 : List Frame),
    (∀ s ∈ pre, isGiveStx s = false) →
    execBody fuel (pre ++ Stx.give tok e :: rest) σ = .ok (v, σ2) →
    ∃ fm σm, visitI fm (some (Stx.give tok e)) σm = .ok (v, σ2) := by
  induction pre with
  | nil =>
      intro fuel tok e rest σ v σ2 _ h
      cases fuel with
      | zero => simp [execBody] at h
      | succ f => exact ⟨f, σ, h⟩
  | cons s pre ih =>
      intro fuel tok e rest σ v σ2 hpre h
      cases fuel with
      | zero => simp [execBody] at h
      | succ f =>
          have hs : isGiveStx s = false := hpre s (List.mem_cons_self s pre)
          simp only [List.cons_append, execBody] at h
          rw [if_neg (by simp [hs])] at h
          obtain ⟨⟨v1, σ1⟩, h1, h⟩ := res_bind_eq_ok h
          exact ih f tok e rest σ1 v σ2
            (fun s2 hs2 => hpre s2 (List.mem_cons_of_mem s hs2)) h

/-- Helper: a body scan that completes without any directly listed give
returns the initial `give_value = None`. -/
theorem execBody_no_give (stmts : List Stx) : ∀ (fuel : Nat) (σ : List Frame)
    (v : RVal) (σ2 : List Frame),
    (∀ s ∈ stmts, isGiveStx s = false) →
    execBody fuel stmts σ = .ok (v, σ2) → v = RVal.none := by
  induction stmts with
  | nil =>
      intro fuel σ v σ2 _ h
      cases fuel with
      | zero => simp [execBody] at h
      | succ f =>
          have hh : (Except.ok ((RVal.none), σ) : Res (RVal × List Frame)) =
            .ok (v, σ2) := h
          rw [Except.ok.injEq, Prod.mk.injEq] at hh
          exact hh.1.symm
  | cons s rest ih =>
      intro fuel σ v σ2 hpre h
      cases fuel with
      | zero => simp [execBody] at h
      | succ f =>
          have hs : isGiveStx s = false := hpre s (List.mem_cons_self s rest)
          simp only [execBody] at h
          rw [if_neg (by simp [hs])] at h
          obtain ⟨⟨v1, σ1⟩, h1, h⟩ := res_bind_eq_ok h
          exact ih f σ1 v σ2
            (fun s2 hs2 => hpre s2 (List.mem_cons_of_mem s hs2)) h

/-- C6: the call scan executes the callee's directly listed statements in
order only: (1) everything after the first directly listed give is
ignored; (2) a successful call's value is exactly that give's evaluated
expression value; (3) if no directly listed statement is a give, a
successful scan returns Python `None`; (4) a successful call pops the
callee's record, restoring the caller's stack depth. -/
theorem claim_C6_call_scan :
    (∀ fuel pre tok e rest σ, (∀ s ∈ pre, isGiveStx s = false) →
      execBody fuel (pre ++ Stx.give tok e :: rest) σ =
        execBody fuel (pre ++ [Stx.give tok e]) σ) ∧
    (∀ fuel pre tok e rest σ v σ2, (∀ s ∈ pre, isGiveStx s = false) →
      execBody fuel (pre ++ Stx.give tok e :: rest) σ = .ok (v, σ2) →
      ∃ fm σm, visitI fm (some (Stx.give tok e)) σm = .ok (v, σ2)) ∧
    (∀ fuel stmts σ v σ2, (∀ s ∈ stmts, isGiveStx s = false) →
      execBody fuel stmts σ = .ok (v, σ2) → v = RVal.none) ∧
    (∀ fuel cv args vt σ r σ2,
      visitI fuel (some (Stx.funcCall cv args vt)) σ = .ok (r, σ2) →
      σ2.length = σ.length) :=
  ⟨fun fuel pre tok e rest σ h => execBody_skip_rest pre fuel tok e rest σ h,
   fun fuel pre tok e rest σ v σ2 h1 h2 =>
     execBody_give_value pre fuel tok e rest σ v σ2 h1 h2,
   fun fuel stmts σ v σ2 h1 h2 => execBody_no_give stmts fuel σ v σ2 h1 h2,
   fun fuel cv args vt σ r σ2 h =>
     ((interpPreserve fuel).1 (some (Stx.funcCall cv args vt)) σ r σ2 h).1⟩

/-- C6 witness: the scan of a body `give 4; int y` ignores the statement
after the give, and a give-free body yields `None`. -/
theorem claim_C6_witness :
    (execBody 10 [wGiveStmt, wDeclStmt] [wFrameCallee, wFrameProg] =
      execBody 10 [wGiveStmt] [wFrameCallee, wFrameProg]) ∧
    okVal (execBody 10 [wDeclStmt] [wFrameCallee, wFrameProg]) = RVal.none := by
  constructor
  · exact claim_C6_call_scan.1 10 [] ⟨.GIVE, .str ['g', 'i', 'v', 'e'], 0⟩
      (some (.intLit ⟨.INT_LITERAL, .int 4, 5⟩)) [wDeclStmt]
      [wFrameCallee, wFrameProg] (fun s hs => absurd hs (List.not_mem_nil s))
  · exact claim_C6_call_scan.2.2.1 10 [wDeclStmt] [wFrameCallee, wFrameProg]
      (okVal (execBody 10 [wDeclStmt] [wFrameCallee, wFrameProg]))
      (okStack (execBody 10 [wDeclStmt] [wFrameCallee, wFrameProg]))
      (by
        intro s hs
        rw [List.mem_singleton] at hs
        subst hs
        rfl)
      rfl

/-- C7: (1) resolving a variable bound only in an ancestor record copies
the resolved value into the current record and every intermediate record
that was missing it, leaving the ancestor record itself (and everything
below it) untouched; (2) executing a callee's body on a freshly pushed
record preserves every existing binding of every record beneath it, so
after the call returns the ancestor record's binding holds the same
value it held before. -/
theorem claim_C7_copy_on_access :
    (∀ fs1 f2 fs3 k v, (∀ fr ∈ fs1, memGet fr.members k = Option.none) →
      memGet f2.members k = some v →
      argetFrames (fs1 ++ f2 :: fs3) k =
        .ok (v, (fs1.map fun fr =>
          { fr with members := memSet fr.members k v }) ++ f2 :: fs3)) ∧
    (∀ fuel stmts fr σrest v σ2,
      execBody fuel stmts (fr :: σrest) = .ok (v, σ2) →
      σ2.length = σrest.length + 1 ∧ StackExt σrest σ2.tail) := by
  constructor
  · intro fs1
    induction fs1 with
    | nil =>
        intro f2 fs3 k v _ hv
        simp only [List.nil_append, List.map_nil, argetFrames]
        rw [hv]
    | cons fr fs1 ih =>
        intro f2 fs3 k v hnone hv
        have h0 : memGet fr.members k = Option.none :=
          hnone fr (List.mem_cons_self fr fs1)
        have ihh := ih f2 fs3 k v
          (fun fr2 hm => hnone fr2 (List.mem_cons_of_mem fr hm)) hv
        obtain ⟨a, as, hsh⟩ : ∃ a as, fs1 ++ f2 :: fs3 = a :: as := by
          cases fs1 with
          | nil => exact ⟨f2, fs3, rfl⟩
          | cons b bs => exact ⟨b, bs ++ f2 :: fs3, rfl⟩
        rw [hsh] at ihh
        simp only [List.cons_append, argetFrames, h0, List.append_eq, hsh,
          ihh, res_bind_ok, List.map_cons]
  · intro fuel stmts fr σrest v σ2 h
    have e := ((interpPreserve fuel).2.2 stmts (fr :: σrest) v σ2 h)
    exact ⟨e.1, e.2⟩

/-- C7 witness: resolving `x`, bound only in the program record, from an
empty callee record copies the value into the callee record and leaves
the program record unchanged; a body assigning the inherited `x`
preserves the program record's binding of `x`. -/
theorem claim_C7_witness :
    argetFrames [wFrameCallee, wFrameProg] wKeyX =
      .ok (wValX,
        [{ wFrameCallee with
            members := memSet wFrameCallee.members wKeyX wValX }, wFrameProg]) ∧
    StackExt [wFrameProg]
      (okStack (execBody 10 [wAssignStmt] [wFrameCallee, wFrameProg])).tail := by
  constructor
  · exact claim_C7_copy_on_access.1 [wFrameCallee] wFrameProg [] wKeyX wValX
      (by
        intro fr hfr
        rw [List.mem_singleton] at hfr
        subst hfr
        rfl)
      rfl
  · exact (claim_C7_copy_on_access.2 10 [wAssignStmt] wFrameCallee [wFrameProg]
      (okVal (execBody 10 [wAssignStmt] [wFrameCallee, wFrameProg]))
      (okStack (execBody 10 [wAssignStmt] [wFrameCallee, wFrameProg])) rfl).2

/-- C8: the interpreter runs only when the error list accumulated across
lexing, parsing and semantic analysis is empty; when the list is
non-empty, the run's outcome is the reported error list and no
interpretation takes place (there is no partial execution). -/
theorem claim_C8_error_gate (fuel : Nat) (text : List Char)
    (prog : Program) (σ : PState) (st : AnState)
    (hp : parseSource fuel (.str ['p']) text = .ok (prog, σ))
    (ha : anVisitProgram fuel prog σ.errs = .ok st) :
    (st.errs = [] →
      mainRun fuel text = .ok (.interpreted (interpProgram fuel prog))) ∧
    (st.errs ≠ [] → mainRun fuel text = .ok (.reported st.errs)) := by
  constructor
  · intro he
    simp only [mainRun, hp, res_bind_ok, ha]
    rw [if_pos (by rw [he]; rfl)]
  · intro hne
    simp only [mainRun, hp, res_bind_ok, ha]
    rw [if_neg ?_]
    intro hc
    cases herr : st.errs with
    | nil => exact hne herr
    | cons e rest =>
        rw [herr] at hc
        cases hc

/-- C8 witness: scenario C accumulates one type error, so the run reports
it instead of interpreting. -/
theorem claim_C8_witness :
    mainRun 200 srcScenarioC =
      .ok (.reported (anStOfRes (anVisitProgram 200
        (progOfRes (parseSource 200 (.str ['p']) srcScenarioC))
        (pstateOfRes (parseSource 200 (.str ['p']) srcScenarioC)).errs)).errs) :=
  (claim_C8_error_gate 200 srcScenarioC
    (progOfRes (parseSource 200 (.str ['p']) srcScenarioC))
    (pstateOfRes (parseSource 200 (.str ['p']) srcScenarioC))
    (anStOfRes (anVisitProgram 200
      (progOfRes (parseSource 200 (.str ['p']) srcScenarioC))
      (pstateOfRes (parseSource 200 (.str ['p']) srcScenarioC)).errs))
    rfl rfl).2 (by decide)

end Boink
